import Mathlib

/-!
Verification of the EnvSimple CLI core: the env-text codec, override merge
engine, context resolver, version tracker, backup chain and the sync protocol
(push / pull / rollback), shallowly embedded from the TypeScript sources.

JavaScript strings are modelled through their `List Char` data (ASCII-faithful:
the whitespace class used by `trim` and by the `[\s#]` quoting test covers the
ASCII whitespace characters; `localeCompare` is modelled for ASCII input as the
ICU root collation restricted to ASCII: letters compare case-insensitively at
the primary level with lowercase before uppercase at the tertiary level, digits
sort before letters, and all remaining characters sort below digits by code
point).  JavaScript `Record<string, string>` objects are modelled as
insertion-ordered association lists with the JS property-assignment semantics
(assigning to an existing key updates it in place, otherwise appends).
-/

namespace EnvSimple

/-! ## JS string primitives -/

/-- ASCII whitespace, the characters JS `trim` and `\s` recognise in ASCII:
tab, line feed, vertical tab, form feed, carriage return and space. -/
def isWs (c : Char) : Bool :=
  c.toNat = 9 || c.toNat = 10 || c.toNat = 11 || c.toNat = 12 || c.toNat = 13 || c.toNat = 32

/-- `String.prototype.trimStart` on the character list. -/
def trimLeftL (l : List Char) : List Char := l.dropWhile isWs

/-- `String.prototype.trimEnd` on the character list. -/
def trimRightL (l : List Char) : List Char := (l.reverse.dropWhile isWs).reverse

/-- `String.prototype.trim` on the character list. -/
def trimL (l : List Char) : List Char := trimRightL (trimLeftL l)

/-- `String.prototype.trim`. -/
def jsTrim (s : String) : String := ⟨trimL s.data⟩

/-- `String.prototype.split(sep)` for a one-character separator, on the
character list: `"" → [""]`, `"a\nb" → ["a","b"]`, `"\n" → ["",""]`. -/
def splitChL (c : Char) : List Char → List (List Char)
  | [] => [[]]
  | x :: xs =>
    if x = c then [] :: splitChL c xs
    else (x :: (splitChL c xs).headI) :: (splitChL c xs).tail

/-- `Array.prototype.join(sep)` for a one-character separator. -/
def interL (c : Char) : List (List Char) → List Char
  | [] => []
  | [x] => x
  | x :: y :: ys => x ++ c :: interL c (y :: ys)

/-- Index of the first occurrence of `c`, JS `indexOf` with `-1` as `none`. -/
def idxOf? (c : Char) : List Char → Option Nat
  | [] => none
  | x :: xs => if x = c then some 0 else (idxOf? c xs).map (· + 1)

/-- JS `startsWith` for a single character. -/
def startsWithCh (c : Char) : List Char → Bool
  | [] => false
  | x :: _ => x = c

/-- JS `endsWith` for a single character. -/
def endsWithCh (c : Char) (l : List Char) : Bool := startsWithCh c l.reverse

/-- JS `String.prototype.substring(a, b)`: clamps to the string and swaps the
bounds when `a > b`. -/
def jsSubstringL (l : List Char) (a b : Nat) : List Char :=
  (l.take (max a b)).drop (min a b)

/-- JS `.replace(/\r\n/g, '\n')` on the character list. -/
def replCRLF : List Char → List Char
  | '\r' :: '\n' :: rest => '\n' :: replCRLF rest
  | c :: rest => c :: replCRLF rest
  | [] => []

/-- Line-ending normalization used by the pull command before comparing the
working file with the newly computed content: `replace(/\r\n/g,'\n').trim()`. -/
def pullNormalize (s : String) : String := ⟨trimL (replCRLF s.data)⟩

/-- Primary collation weight of an ASCII character under the root locale:
letters (case-insensitive) above digits above everything else. -/
def charPrimary (c : Char) : Nat :=
  if c.isAlpha then 2000 + c.toLower.toNat
  else if c.isDigit then 1000 + c.toNat
  else c.toNat

/-- Tertiary collation weight: uppercase sorts after lowercase on ties. -/
def charTertiary (c : Char) : Nat :=
  if 'A' ≤ c && c ≤ 'Z' then 1 else 0

/-- Lexicographic comparison of weight lists. -/
def lexNat : List Nat → List Nat → Ordering
  | [], [] => .eq
  | [], _ :: _ => .lt
  | _ :: _, [] => .gt
  | a :: as, b :: bs => (compare a b).then (lexNat as bs)

/-- JS `String.prototype.localeCompare` under the root/`en` locale, modelled
for ASCII strings: compare primary weights lexicographically, break full ties
by the tertiary (case) weights. -/
def localeCompare (a b : String) : Ordering :=
  (lexNat (a.data.map charPrimary) (b.data.map charPrimary)).then
    (lexNat (a.data.map charTertiary) (b.data.map charTertiary))

/-! ## JS `Record<string, string>` objects as insertion-ordered assoc lists -/

/-- First binding of key `k`, i.e. JS property lookup (keys are unique in an
actual JS object, so first = only). -/
def recGet? {β : Type} (r : List (String × β)) (k : String) : Option β :=
  (r.find? (fun p => p.1 = k)).map Prod.snd

/-- JS `k in r` / `Object.hasOwn`. -/
def recHas {β : Type} (r : List (String × β)) (k : String) : Bool :=
  r.any (fun p => p.1 = k)

/-- JS `Object.keys`. -/
def recKeys {β : Type} (r : List (String × β)) : List String := r.map Prod.fst

/-- JS property assignment `r[k] = v`: update in place if the key exists,
otherwise append. -/
def recSet {β : Type} (r : List (String × β)) (k : String) (v : β) :
    List (String × β) :=
  if recHas r k then r.map (fun p => if p.1 = k then (k, v) else p)
  else r ++ [(k, v)]

/-- JS `delete r[k]`. -/
def recDelete {β : Type} (r : List (String × β)) (k : String) :
    List (String × β) :=
  r.filter (fun p => !(p.1 = k))

/-! ## Env-text codec (src `env/file-ops.ts`) -/

/-- The quote-stripping test of `parseEnvContent`: the value starts and ends
with `"`, or starts and ends with `'`. -/
def quoteWrapped (l : List Char) : Bool :=
  (startsWithCh '"' l && endsWithCh '"' l)
    || (startsWithCh '\'' l && endsWithCh '\'' l)

/-- One iteration of the parsing loop of `parseEnvContent`: trim the line,
skip blank and `#` lines and lines without `=`, split at the first `=`, trim
the key and the value, strip one matching pair of surrounding quotes
(`substring(1, length - 1)`, with the JS bound-swapping semantics), and assign
into the accumulator object. -/
def parseLineInto (acc : List (String × String)) (line : List Char) :
    List (String × String) :=
  let trimmed := trimL line
  if trimmed.isEmpty then acc
  else if startsWithCh '#' trimmed then acc
  else
    match idxOf? '=' trimmed with
    | none => acc
    | some i =>
      let key := trimL (trimmed.take i)
      let v0 := trimL (trimmed.drop (i + 1))
      let value :=
        if quoteWrapped v0 then jsSubstringL v0 1 (v0.length - 1)
        else v0
      recSet acc ⟨key⟩ ⟨value⟩

/-- `parseEnvContent`: split on `'\n'` and run the line loop. -/
def parseEnvContent (content : String) : List (String × String) :=
  (splitChL '\n' content.data).foldl parseLineInto []

/-- The `/[\s#]/.test(value)` quoting condition of `formatEnvContent`. -/
def needsQuotes (v : String) : Bool :=
  v.data.any (fun c => isWs c || c = '#')

/-- One formatted entry `KEY=VALUE`, the value double-quoted when it contains
whitespace or `#`. -/
def formatEntryL (k v : String) : List Char :=
  k.data ++ '=' :: (if needsQuotes v then '"' :: v.data ++ ['"'] else v.data)

/-- The comparator passed to `sort`: `(a, b) => a.localeCompare(b)` on keys.
JS `sort` is stable, which for a consistent comparator determines the result
uniquely; stable insertion sort realises it. -/
def sortEntriesJS (m : List (String × String)) : List (String × String) :=
  m.insertionSort (fun a b => localeCompare a.1 b.1 = Ordering.lt)

/-- `formatEnvContent`: sort the entries by `localeCompare` on keys, format
each entry, join with `'\n'` and append one `'\n'`. -/
def formatEnvContent (m : List (String × String)) : String :=
  ⟨interL '\n' ((sortEntriesJS m).map (fun p => formatEntryL p.1 p.2)) ++ ['\n']⟩

/-- Ordinal (code-point) comparison on strings, written from the spec words
for the refinement comparison of the sort order claim; this is not what the
source uses. -/
def ordinalLt (a b : String) : Prop :=
  List.Lex (· < ·) (a.data.map Char.toNat) (b.data.map Char.toNat)

instance : DecidableRel ordinalLt := by
  intro a b
  unfold ordinalLt
  infer_instance

/-- Spec-worded variant of `formatEnvContent` whose keys are sorted by ordinal
string comparison, for comparison against the implementation. -/
def formatEnvContentOrdinal (m : List (String × String)) : String :=
  ⟨interL '\n' ((m.insertionSort (fun a b => ordinalLt a.1 b.1)).map
      (fun p => formatEntryL p.1 p.2)) ++ ['\n']⟩

/-- `applyOverrides(baseEnv, overrides) = { ...baseEnv, ...overrides }`:
spread = assign every override binding, in order, on top of a copy of the
base object. -/
def applyOverrides (baseEnv overrides : List (String × String)) :
    List (String × String) :=
  overrides.foldl (fun acc p => recSet acc p.1 p.2) baseEnv

/-! ## Context resolution (src `config/context.ts`) -/

/-- JS truthiness of an optional string: `undefined` and `""` are falsy. -/
def truthy : Option String → Bool
  | none => false
  | some s => !(s = "")

/-- JS `a || b` on optional strings: `a` when truthy, otherwise `b`. -/
def jsOrS (a b : Option String) : Option String :=
  if truthy a then a else b

/-- Team-committed shared context, all fields present and non-empty once
loaded. -/
structure SharedContext where
  org : String
  project : String
  environment : String
deriving DecidableEq, Repr

/-- Developer-private local context: every field optional, plus the override
mapping (`overrides` defaults to the empty object at use sites). -/
structure LocalContext where
  org : Option String
  project : Option String
  environment : Option String
  overrides : List (String × String)
deriving DecidableEq, Repr

/-- Parsed content of an existing `.envsimple` file: `parseYAML` may produce
`null` or a non-object (`notObject`), or an object whose three relevant fields
may each be absent. -/
inductive SharedFileData where
  | notObject : SharedFileData
  | obj (org project environment : Option String) : SharedFileData
deriving DecidableEq, Repr

/-- The configuration-error taxonomy member raised by context loading. -/
inductive CtxError where
  | configurationError (msg : String)
deriving DecidableEq, Repr

/-- `loadSharedContext`: a missing file yields `null`; an existing file must
parse to an object carrying truthy `org`, `project` and `environment`, else a
`ConfigurationError` is thrown (and re-thrown past the `ENOENT` filter). -/
def loadSharedContext (file : Option SharedFileData) :
    Except CtxError (Option SharedContext) :=
  match file with
  | none => .ok none
  | some .notObject => .error (.configurationError "Invalid .envsimple file format")
  | some (.obj o p e) =>
    if truthy o && truthy p && truthy e then
      .ok (some ⟨o.getD "", p.getD "", e.getD ""⟩)
    else
      .error (.configurationError
        ".envsimple must contain org, project, and environment fields")

/-- Where a resolved context came from. -/
inductive CtxSource where
  | flags
  | localFile
  | sharedFile
  | interactive
deriving DecidableEq, Repr

/-- The per-invocation resolved (org, project, environment) triple. -/
structure ResolvedContext where
  org : String
  project : String
  environment : String
  source : CtxSource
deriving DecidableEq, Repr

/-- Global CLI options common to the commands under verification. -/
structure CLIOptions where
  org : Option String
  project : Option String
  environment : Option String
  json : Bool
  force : Bool
  token : Bool
deriving DecidableEq, Repr

/-- `resolveContext(options, output, cwd, skipLocal)`.  The shared context is
loaded first (its `ConfigurationError` propagates), the local context is
dropped when `skipLocal`; then: all-truthy flags short-circuit with source
`flags`; otherwise each field falls back flag → local → shared, and when all
three resolve truthy the source is `local` exactly when a local context file
was loaded.  File loading is abstracted by passing the parsed file contents. -/
def resolveContext (options : CLIOptions) (sharedFile : Option SharedFileData)
    (localFile : Option LocalContext) (skipLocal : Bool) :
    Except CtxError (Option ResolvedContext) :=
  match loadSharedContext sharedFile with
  | .error e => .error e
  | .ok shared =>
    let localCtx := if skipLocal then none else localFile
    if truthy options.org && truthy options.project && truthy options.environment then
      .ok (some ⟨options.org.getD "", options.project.getD "",
        options.environment.getD "", .flags⟩)
    else
      let resolvedOrg := jsOrS options.org
        (jsOrS (localCtx.bind LocalContext.org) (shared.map SharedContext.org))
      let resolvedProject := jsOrS options.project
        (jsOrS (localCtx.bind LocalContext.project) (shared.map SharedContext.project))
      let resolvedEnv := jsOrS options.environment
        (jsOrS (localCtx.bind LocalContext.environment) (shared.map SharedContext.environment))
      if truthy resolvedOrg && truthy resolvedProject && truthy resolvedEnv then
        .ok (some ⟨resolvedOrg.getD "", resolvedProject.getD "", resolvedEnv.getD "",
          if localCtx.isSome then .localFile else .sharedFile⟩)
      else
        .ok none

/-- `getLocalOverrides`: `local?.overrides || {}`. -/
def getLocalOverrides (localFile : Option LocalContext) : List (String × String) :=
  (localFile.map LocalContext.overrides).getD []

/-! ## Version tracker (src `utils/version-tracker.ts`) -/

/-- One persisted tracker entry. -/
structure VersionTracker where
  org : String
  project : String
  environment : String
  base_version : Nat
  last_pulled_at : String
deriving DecidableEq, Repr

/-- The store key `"org/project/environment"`. -/
def trackerKey (org project environment : String) : String :=
  org ++ "/" ++ project ++ "/" ++ environment

/-- `getVersionInfo`: `data[key] || null`. -/
def getVersionInfo (data : List (String × VersionTracker))
    (org project environment : String) : Option VersionTracker :=
  recGet? data (trackerKey org project environment)

/-- `updateVersionInfo`: overwrite the entry at the context key with the new
base version and timestamp, leaving the rest of the store alone, then save.
The wall-clock timestamp is passed in as `now`. -/
def updateVersionInfo (data : List (String × VersionTracker))
    (org project environment : String) (baseVersion : Nat) (now : String) :
    List (String × VersionTracker) :=
  recSet data (trackerKey org project environment)
    ⟨org, project, environment, baseVersion, now⟩

/-! ## Backup chain (src `env/file-ops.ts` and the inline pull variant) -/

/-- The timestamped separator between backup captures. -/
def backupSeparator (timestamp : String) : String :=
  "\n\n# ===== Backup from " ++ timestamp ++ " =====\n\n"

/-- Local file-system state touched by the sync commands: the `.env` working
file, the `.env.copy` backup chain (either may be absent) and the version
tracker store. -/
structure LocalFS where
  env : Option String
  backup : Option String
  tracker : List (String × VersionTracker)
deriving DecidableEq, Repr

/-- `createBackup()`: nothing to do when `.env` is missing; append the current
content after a timestamped separator when a backup already exists, otherwise
copy verbatim.  Returns the updated backup file. -/
def createBackup (fs : LocalFS) (now : String) : LocalFS :=
  match fs.env with
  | none => fs
  | some content =>
    match fs.backup with
    | some existing => ⟨fs.env, some (existing ++ backupSeparator now ++ content), fs.tracker⟩
    | none => ⟨fs.env, some content, fs.tracker⟩

/-! ## The remote backend

Modelled from the spec: the backend itself is outside this repository and the
spec describes it only at its interface (§6): the environment holds an
append-only list of snapshots (`version_number 0` = none yet); a push carrying
a base version succeeds exactly when the base equals the current version; a
push without a base is accepted unconditionally and its resulting version is
flagged as a forced push; rollback to an existing version appends a new
version whose content equals the target's.  A single target environment is
modelled; network failure of the snapshot/push/rollback calls is injected via
the `fetchOk`/`pushOk`/`rollbackOk` switches (failures of the name→id listing
calls happen before any local write and are not modelled separately). -/

structure Remote where
  organizations : List String
  projects : String → List (String × String)
  environments : String → List (String × String)
  snapshots : List String
  fetchOk : Bool
  pushOk : Bool
  rollbackOk : Bool

/-- A `VersionSnapshot` as returned by `getCurrentVersion`. -/
structure Snapshot where
  version_number : Nat
  plaintext : String
deriving DecidableEq, Repr

/-- Modelled from the spec: `getCurrentSnapshot` returns the latest snapshot,
or version 0 with empty plaintext when nothing has been pushed yet; `none`
models a network failure. -/
def remoteGetCurrent (r : Remote) : Option Snapshot :=
  if r.fetchOk then some ⟨r.snapshots.length, (r.snapshots.getLast?).getD ""⟩
  else none

inductive PushResp where
  | success (version_number : Nat) (is_forced_push : Bool)
  | conflictResp
  | netError
deriving DecidableEq, Repr

/-- Modelled from the spec: `pushSnapshot` validates the base version against
the current one when a base is supplied, and accepts unconditionally (flagging
the version as forced) when the base is omitted. -/
def remotePush (r : Remote) (plaintext : String) (base : Option Nat) :
    Remote × PushResp :=
  if !r.pushOk then (r, .netError)
  else
    match base with
    | none =>
      (⟨r.organizations, r.projects, r.environments, r.snapshots ++ [plaintext],
        r.fetchOk, r.pushOk, r.rollbackOk⟩, .success (r.snapshots.length + 1) true)
    | some b =>
      if b = r.snapshots.length then
        (⟨r.organizations, r.projects, r.environments, r.snapshots ++ [plaintext],
          r.fetchOk, r.pushOk, r.rollbackOk⟩, .success (r.snapshots.length + 1) false)
      else (r, .conflictResp)

inductive RollbackResp where
  | success (rolled_back_from rolled_back_to version_number : Nat)
  | notFound
  | netError
deriving DecidableEq, Repr

/-- Modelled from the spec: `rollback(target)` appends a brand-new version
whose content equals the target's (history is never mutated). -/
def remoteRollback (r : Remote) (target : Nat) : Remote × RollbackResp :=
  if !r.rollbackOk then (r, .netError)
  else if 1 ≤ target && target ≤ r.snapshots.length then
    (⟨r.organizations, r.projects, r.environments,
      r.snapshots ++ [((r.snapshots.get? (target - 1)).getD "")],
      r.fetchOk, r.pushOk, r.rollbackOk⟩,
      .success r.snapshots.length target (r.snapshots.length + 1))
  else (r, .notFound)

/-! ## Command interpreters

Each command is embedded as a pure function from its inputs (flags, parsed
context files, prompt answers, a wall-clock timestamp) and the ambient state
(local files + remote) to a `RunResult`: the final local file-system state, a
trace of observable effects in order, and the process outcome.  Terminal
output is recorded via the `Output` semantics of `output/formatter.ts`
(`success`/`warning`/`error`/`info` print nothing in `--json` mode); JSON
payloads are summarised as tag strings; telemetry and `.gitignore` contents
are outside the claims and are reduced to marker effects. -/

inductive Effect where
  | outInfo (msg : String)
  | outWarning (msg : String)
  | outError (msg : String)
  | outSuccess (msg : String)
  | outJson (payload : String)
  | promptConfirm (message : String)
  | backupWrite (captured : String)
  | envFileWrite (content : String)
  | gitignoreEnsured
  | sharedContextSaved (org project environment : String)
  | trackerWrite (key : String) (base : Nat)
  | fetchRequest
  | fetchSuccess (version : Nat)
  | pushRequest (plaintext : String) (base : Option Nat)
  | pushSuccess (version : Nat) (forced : Bool)
  | pushConflict
  | rollbackRequest (target : Nat)
  | rollbackSuccess (fromV toV newV : Nat)
deriving DecidableEq, Repr

inductive Outcome where
  | completed
  | exited (code : Nat)
deriving DecidableEq, Repr

structure RunResult where
  fs : LocalFS
  trace : List Effect
  outcome : Outcome
deriving DecidableEq, Repr

/-- A thrown JS error as the commands observe it: optional `code` plus
message. -/
structure CmdError where
  code : Option String
  message : String
deriving DecidableEq, Repr

def authRequiredError : CmdError :=
  ⟨some "AUTHENTICATION_REQUIRED", "Not logged in. Run \"envsimple login\" first."⟩

def cancelledError : CmdError := ⟨some "CANCELLED", "Operation cancelled"⟩

def interactiveRequiredError : CmdError :=
  ⟨some "INTERACTIVE_REQUIRED", "Interactive prompt required but --json mode is enabled"⟩

def networkError : CmdError :=
  ⟨some "NETWORK_ERROR", "Network error: Unable to connect to EnvSimple API"⟩

/-- `Output.info`: silent in JSON mode. -/
def emitInfo (json : Bool) (msg : String) : List Effect :=
  if json then [] else [.outInfo msg]

/-- `Output.warning`: silent in JSON mode. -/
def emitWarning (json : Bool) (msg : String) : List Effect :=
  if json then [] else [.outWarning msg]

/-- `Output.error`: silent in JSON mode. -/
def emitError (json : Bool) (msg : String) : List Effect :=
  if json then [] else [.outError msg]

/-- `Output.success`: silent in JSON mode. -/
def emitSuccess (json : Bool) (msg : String) : List Effect :=
  if json then [] else [.outSuccess msg]

/-- `confirm(message, default, options)` from `utils/prompts.ts`: JSON mode
raises `INTERACTIVE_REQUIRED`; a cancelled prompt (`none`) raises
`CANCELLED`; otherwise the oracle answer is returned. -/
def confirmPrompt (json : Bool) (message : String) (answer : Option Bool) :
    List Effect × Except CmdError Bool :=
  if json then ([], .error interactiveRequiredError)
  else
    ([.promptConfirm message],
      match answer with
      | none => .error cancelledError
      | some b => .ok b)

/-- The shared `catch` block of push/pull/rollback: JSON error payload or
human message (with the `PERMISSION_DENIED` prefix), then `process.exit` with
the error's exit code (always 1 for the errors in scope). -/
def cmdCatch (defaultCode : String) (json : Bool) (fs : LocalFS)
    (tr : List Effect) (e : CmdError) : RunResult :=
  if json then ⟨fs, tr ++ [.outJson ("error=" ++ (e.code.getD defaultCode))], .exited 1⟩
  else if e.code = some "PERMISSION_DENIED" then
    ⟨fs, tr ++ [.outError ("Unauthorized: " ++ e.message)], .exited 1⟩
  else ⟨fs, tr ++ [.outError e.message], .exited 1⟩

/-- The org → project → environment name-to-id resolution shared by the
commands, with its three not-found errors. -/
def lookupEnvId (remote : Remote) (ctx : ResolvedContext) :
    Except CmdError String :=
  match remote.organizations.find? (fun slug => slug = ctx.org) with
  | none => .error ⟨none, "Organization \"" ++ ctx.org ++ "\" not found"⟩
  | some _ =>
    match (remote.projects ctx.org).find? (fun p => p.1 = ctx.project) with
    | none => .error ⟨none, "Project \"" ++ ctx.project ++ "\" not found"⟩
    | some proj =>
      match (remote.environments proj.2).find? (fun e => e.1 = ctx.environment) with
      | none => .error ⟨none, "Environment \"" ++ ctx.environment ++ "\" not found"⟩
      | some env => .ok env.2

/-! ## Push (src `commands/push.ts`, second document of `commands/logout.ts`) -/

structure PushInputs where
  options : CLIOptions
  serviceTokenEnv : Option String
  authOk : Bool
  sharedFile : Option SharedFileData
  localFile : Option LocalContext
  answerIncludeOverrides : Option Bool
  answerForcePush : Option Bool
  now : String

/-- Auth/token preamble, context resolution, working-file read and the
override-collision confirm/strip step, accumulating trace on both paths. -/
def pushPrepare (inp : PushInputs) (fs : LocalFS) :
    Except (List Effect × CmdError)
      (ResolvedContext × List (String × String) × List Effect) :=
  let json := inp.options.json
  let step0 : Except (List Effect × CmdError) (List Effect) :=
    if inp.options.token then
      match inp.serviceTokenEnv with
      | none => .error ([], ⟨none,
          "ENVSIMPLE_SERVICE_TOKEN environment variable is required when using --token flag"⟩)
      | some _ =>
        if !(truthy inp.options.org && truthy inp.options.project
            && truthy inp.options.environment) then
          match loadSharedContext inp.sharedFile with
          | .error (.configurationError m) =>
            .error ([], ⟨some "CONFIGURATION_ERROR", m⟩)
          | .ok none => .error ([], ⟨none,
              "Either .envsimple file or --org, --project, --environment flags are required when using --token flag."⟩)
          | .ok (some _) => .ok (emitInfo json "✓ Using service token\n")
        else .ok (emitInfo json "✓ Using service token\n")
    else
      if inp.authOk then .ok [] else .error ([], authRequiredError)
  match step0 with
  | .error e => .error e
  | .ok tr0 =>
    match resolveContext inp.options inp.sharedFile inp.localFile inp.options.token with
    | .error (.configurationError m) => .error (tr0, ⟨some "CONFIGURATION_ERROR", m⟩)
    | .ok none => .error (tr0, ⟨none, "Context not resolved. Use flags or create .envsimple file."⟩)
    | .ok (some ctx) =>
      let envContent := (fs.env).getD ""
      if jsTrim envContent = "" then
        .error (tr0, ⟨none, ".env file is empty or does not exist"⟩)
      else
        let localEnv := parseEnvContent envContent
        let localOverrides := getLocalOverrides inp.localFile
        let hasOverrides := (recKeys localEnv).any (fun k => recHas localOverrides k)
        if hasOverrides && !inp.options.force && !inp.options.token then
          let tr1 := tr0
            ++ emitWarning json "Local .env contains keys defined in .envsimple.local overrides:"
            ++ ((recKeys localEnv).filter (fun k => recHas localOverrides k)).foldr
                (fun k acc => emitInfo json ("  - " ++ k) ++ acc) []
            ++ emitInfo json "\nIf you say \"yes\", the values from your .env will be pushed to remote."
            ++ emitInfo json "If you say \"no\", these keys will be excluded from the push.\n"
          let cp := confirmPrompt json "Include these keys in push?" inp.answerIncludeOverrides
          let pe := cp.1
          match cp.2 with
          | .error e => .error (tr1 ++ pe, e)
          | .ok true => .ok (ctx, localEnv, tr1 ++ pe)
          | .ok false =>
            let stripped := (recKeys localOverrides).foldl recDelete localEnv
            .ok (ctx, stripped, tr1 ++ pe
              ++ emitInfo json ("Excluding "
                  ++ toString (localEnv.length - stripped.length) ++ " override keys"))
        else .ok (ctx, localEnv, tr0)

/-- Base-version determination: forced or token pushes send no base; otherwise
the tracker entry is used, falling back to a best-effort read of the remote's
current version, and silently to no base when that read fails. -/
def pushBase (inp : PushInputs) (fs : LocalFS) (remote : Remote)
    (ctx : ResolvedContext) : Option Nat × List Effect :=
  if inp.options.force || inp.options.token then
    (none, if inp.options.token then []
      else emitWarning inp.options.json "⚠️  Force push: This will overwrite remote changes")
  else
    match getVersionInfo fs.tracker ctx.org ctx.project ctx.environment with
    | some vi => (some vi.base_version, [])
    | none =>
      match remoteGetCurrent remote with
      | some snap => (some snap.version_number, [.fetchRequest, .fetchSuccess snap.version_number])
      | none => (none, [.fetchRequest])

/-- `createBackup()` together with its observable capture effect. -/
def createBackupE (fs : LocalFS) (now : String) : LocalFS × List Effect :=
  match fs.env with
  | none => (fs, [])
  | some content => (createBackup fs now, [.backupWrite content])

/-- The submission stage of push: backup (skipped in token mode), format the
payload, submit with the determined base, and on a `CONFLICT` response report
it, suggest pulling and — unless forced or in token mode — offer one retry as
a forced push with the base omitted.  Returns the final local state, the trace
of this stage, and the error that escapes to the catch block, if any. -/
def pushSubmit (inp : PushInputs) (ctx : ResolvedContext)
    (localEnv : List (String × String)) (base : Option Nat)
    (fs : LocalFS) (remote : Remote) : LocalFS × List Effect × Option CmdError :=
  let json := inp.options.json
  let bk := if inp.options.token then (fs, ([] : List Effect)) else createBackupE fs inp.now
  let fs1 := bk.1
  let trB := bk.2
  let plaintext := formatEnvContent localEnv
  let pr := remotePush remote plaintext base
  let remote1 := pr.1
  let trP := trB ++ [.pushRequest plaintext base]
  match pr.2 with
  | .success vn forced =>
    let fs2 : LocalFS := ⟨fs1.env, fs1.backup,
      updateVersionInfo fs1.tracker ctx.org ctx.project ctx.environment vn inp.now⟩
    let trOut :=
      if json then
        [Effect.outJson ("status=success;version=" ++ toString vn
          ++ ";is_forced_push=" ++ toString forced)]
      else
        [Effect.outSuccess ("Pushed version " ++ toString vn ++ " to " ++ ctx.environment)]
          ++ (if forced then
              [Effect.outWarning "This was a forced push (base version mismatch detected)"]
            else [])
    (fs2, trP ++ [.pushSuccess vn forced, .trackerWrite (trackerKey ctx.org ctx.project ctx.environment) vn] ++ trOut, none)
  | .netError => (fs1, trP, some networkError)
  | .conflictResp =>
    let trC := trP ++ [.pushConflict]
      ++ emitError json "Remote version is newer than your base."
      ++ emitInfo json "\nRun \"envsimple pull\" to sync first, then push again."
    if !inp.options.force && !inp.options.token then
      let cp := confirmPrompt json "\nPush anyway (forced push)?" inp.answerForcePush
      let pe := cp.1
      match cp.2 with
      | .error e => (fs1, trC ++ pe, some e)
      | .ok true =>
        let trR := trC ++ pe ++ [.pushRequest plaintext none]
        match (remotePush remote1 plaintext none).2 with
        | .success vn2 forced2 =>
          let fs2 : LocalFS := ⟨fs1.env, fs1.backup,
            updateVersionInfo fs1.tracker ctx.org ctx.project ctx.environment vn2 inp.now⟩
          let trOut :=
            if json then
              [Effect.outJson ("status=success;version=" ++ toString vn2 ++ ";is_forced_push=true")]
            else [Effect.outSuccess ("Forced push: version " ++ toString vn2)]
          (fs2, trR ++ [.pushSuccess vn2 forced2, .trackerWrite (trackerKey ctx.org ctx.project ctx.environment) vn2] ++ trOut, none)
        | .netError => (fs1, trR, some networkError)
        | .conflictResp =>
          (fs1, trR, some ⟨some "CONFLICT", "Push conflict - remote version is newer"⟩)
      | .ok false =>
        (fs1, trC ++ pe, some ⟨some "CONFLICT", "Push conflict - remote version is newer"⟩)
    else (fs1, trC, some ⟨some "CONFLICT", "Push conflict - remote version is newer"⟩)

/-- The push command end to end. -/
def pushCommand (inp : PushInputs) (fs : LocalFS) (remote : Remote) : RunResult :=
  match pushPrepare inp fs with
  | .error (tr, e) => cmdCatch "PUSH_ERROR" inp.options.json fs tr e
  | .ok (ctx, localEnv, tr1) =>
    match lookupEnvId remote ctx with
    | .error e => cmdCatch "PUSH_ERROR" inp.options.json fs tr1 e
    | .ok _ =>
      let pb := pushBase inp fs remote ctx
      let ps := pushSubmit inp ctx localEnv pb.1 fs remote
      match ps.2.2 with
      | none => ⟨ps.1, tr1 ++ pb.2 ++ ps.2.1, .completed⟩
      | some e => cmdCatch "PUSH_ERROR" inp.options.json ps.1 (tr1 ++ pb.2 ++ ps.2.1) e

/-! ## Pull (src `commands/pull.ts`, first document) -/

structure PullInputs where
  options : CLIOptions
  authOk : Bool
  sharedFile : Option SharedFileData
  localFile : Option LocalContext
  interactiveCtx : Option (String × String × String)
  answerOverwrite : Option Bool
  now : String

/-- The backup-on-mismatch step of pull (lines 129–160): when `.env` exists,
normalize both contents (`replace(/\r\n/g,'\n').trim()`); when they differ and
the normalized current content is non-empty, append the current content to the
existing backup after a timestamped separator, or create the backup as a
verbatim copy. -/
def pullBackupStep (json : Bool) (fs : LocalFS) (envContent : String)
    (now : String) : LocalFS × List Effect :=
  match fs.env with
  | none => (fs, [])
  | some currentContent =>
    let normalizedCurrent := pullNormalize currentContent
    let normalizedNew := pullNormalize envContent
    if normalizedCurrent ≠ normalizedNew ∧ normalizedCurrent ≠ "" then
      match fs.backup with
      | some existing =>
        (⟨fs.env, some (existing ++ backupSeparator now ++ currentContent), fs.tracker⟩,
          [.backupWrite currentContent]
            ++ emitInfo json "✓ Appended to .env.copy (content mismatch detected)")
      | none =>
        (⟨fs.env, some currentContent, fs.tracker⟩,
          [.backupWrite currentContent]
            ++ emitInfo json "✓ Created .env.copy (content mismatch detected)")
    else (fs, [])

/-- Everything pull does after the fetched snapshot has been parsed and the
overwrite confirmation (if any) has been accepted: apply overrides, format,
backup-on-mismatch, write `.env`, ensure `.gitignore`, record the base
version, report. -/
def pullFinish (inp : PullInputs) (fs : LocalFS) (ctx : ResolvedContext)
    (baseEnv : List (String × String)) (snapVersion : Nat) (tr : List Effect) :
    RunResult :=
  let json := inp.options.json
  let localOverrides := getLocalOverrides inp.localFile
  let finalEnv := applyOverrides baseEnv localOverrides
  let envContent := formatEnvContent finalEnv
  let fs1 := (pullBackupStep json fs envContent inp.now).1
  let trB := (pullBackupStep json fs envContent inp.now).2
  let fs2 : LocalFS := ⟨some envContent, fs1.backup,
    updateVersionInfo fs1.tracker ctx.org ctx.project ctx.environment snapVersion inp.now⟩
  let trOut :=
    if json then
      [Effect.outJson ("status=success;version=" ++ toString snapVersion
        ++ ";keys=" ++ toString finalEnv.length
        ++ ";overrides_applied=" ++ toString localOverrides.length)]
    else
      [Effect.outSuccess ("Pulled version " ++ toString snapVersion
          ++ " from " ++ ctx.environment),
        Effect.outInfo (toString finalEnv.length ++ " keys written to .env")]
        ++ (if localOverrides.length > 0 then
            [Effect.outInfo (toString localOverrides.length ++ " local overrides applied")]
          else [])
  ⟨fs2, tr ++ trB
      ++ [.envFileWrite envContent, .gitignoreEnsured,
        .trackerWrite (trackerKey ctx.org ctx.project ctx.environment) snapVersion]
      ++ trOut,
    .completed⟩

/-- Pull from the point where a context is available: resolve the environment
id, fetch the current snapshot, parse, confirm before overwriting with an
empty or version-0 snapshot, then `pullFinish`. -/
def pullWithCtx (inp : PullInputs) (fs : LocalFS) (remote : Remote)
    (ctx : ResolvedContext) (tr0 : List Effect) : RunResult :=
  let json := inp.options.json
  let tr1 := tr0 ++ emitInfo json ("Pulling " ++ ctx.org ++ "/" ++ ctx.project
    ++ "/" ++ ctx.environment ++ "...\n")
  match lookupEnvId remote ctx with
  | .error e => cmdCatch "PULL_ERROR" json fs tr1 e
  | .ok _ =>
    let tr2 := tr1 ++ [.fetchRequest]
    match remoteGetCurrent remote with
    | none => cmdCatch "PULL_ERROR" json fs tr2 networkError
    | some snap =>
      let tr3 := tr2 ++ [.fetchSuccess snap.version_number]
      let baseEnv := parseEnvContent snap.plaintext
      let keyCount := (recKeys baseEnv).length
      if (snap.version_number = 0 || keyCount = 0) && !json then
        let warnMsg :=
          if keyCount = 0 then "⚠️  This environment has no keys"
          else "⚠️  This environment has version " ++ toString snap.version_number
        let tr4 := tr3 ++ [Effect.outWarning warnMsg]
        let cp := confirmPrompt json
          "This will overwrite your local .env file. Continue?" inp.answerOverwrite
        let pe := cp.1
        match cp.2 with
        | .error e => cmdCatch "PULL_ERROR" json fs (tr4 ++ pe) e
        | .ok false => ⟨fs, tr4 ++ pe ++ [.outInfo "Pull cancelled"], .exited 0⟩
        | .ok true =>
          pullFinish inp fs ctx baseEnv snap.version_number (tr4 ++ pe)
      else pullFinish inp fs ctx baseEnv snap.version_number tr3

/-- The pull command end to end.  The interactive select-from-remote-listings
fallback is summarised by the `interactiveCtx` oracle: `none` models the user
cancelling one of the selects, `some` the chosen (org, project, environment),
which pull persists as the new shared context before proceeding. -/
def pullCommand (inp : PullInputs) (fs : LocalFS) (remote : Remote) : RunResult :=
  let json := inp.options.json
  if !inp.authOk then cmdCatch "PULL_ERROR" json fs [] authRequiredError
  else
    let tr0 := emitInfo json "✓ Authenticated\n"
    match resolveContext inp.options inp.sharedFile inp.localFile false with
    | .error (.configurationError m) =>
      cmdCatch "PULL_ERROR" json fs tr0 ⟨some "CONFIGURATION_ERROR", m⟩
    | .ok (some ctx) => pullWithCtx inp fs remote ctx tr0
    | .ok none =>
      if json then ⟨fs, tr0 ++ [.outJson "error=CONTEXT_REQUIRED"], .exited 1⟩
      else
        let tr1 := tr0 ++ [Effect.outInfo "No context configured. Please select your target:\n"]
        match inp.interactiveCtx with
        | none => cmdCatch "PULL_ERROR" json fs tr1 cancelledError
        | some (o, p, e) =>
          pullWithCtx inp fs remote ⟨o, p, e, .interactive⟩
            (tr1 ++ [.sharedContextSaved o p e, .outInfo "✓ Context saved to .envsimple\n"])

/-! ## Rollback (src `commands/rollback.ts`) -/

structure RollbackInputs where
  options : CLIOptions
  target : Option Nat
  authOk : Bool
  sharedFile : Option SharedFileData
  localFile : Option LocalContext
  now : String

/-- Everything rollback does once the remote rollback call has succeeded:
backup the working file unconditionally, fetch the (new) current snapshot,
merge overrides, write `.env` and record the new base version. -/
def rollbackAfterRemote (inp : RollbackInputs) (fs : LocalFS) (remote1 : Remote)
    (ctx : ResolvedContext) (fromV toV newV : Nat) (tr : List Effect) : RunResult :=
  let json := inp.options.json
  let fs1 := (createBackupE fs inp.now).1
  let trB := (createBackupE fs inp.now).2 ++
    (match fs.env, fs.backup with
      | some _, some _ => emitInfo json "✓ Appended to .env.copy"
      | some _, none => emitInfo json "✓ Backed up .env to .env.copy"
      | none, _ => [])
  let tr1 := tr ++ trB ++ [Effect.fetchRequest]
  match remoteGetCurrent remote1 with
  | none => cmdCatch "ROLLBACK_ERROR" json fs1 tr1 networkError
  | some snap =>
    let baseEnv := parseEnvContent snap.plaintext
    let localOverrides := getLocalOverrides inp.localFile
    let finalEnv := applyOverrides baseEnv localOverrides
    let envContent := formatEnvContent finalEnv
    let fs2 : LocalFS := ⟨some envContent, fs1.backup,
      updateVersionInfo fs1.tracker ctx.org ctx.project ctx.environment
        snap.version_number inp.now⟩
    let trOut :=
      if json then [Effect.outJson ("status=success;rolled_back_from=" ++ toString fromV
        ++ ";rolled_back_to=" ++ toString toV ++ ";version=" ++ toString newV)]
      else
        [Effect.outSuccess ("Rolled back from v" ++ toString fromV ++ " to v" ++ toString toV),
          Effect.outInfo ("New version: v" ++ toString newV),
          Effect.outInfo "\n✓ Updated .env with rolled back version"]
    ⟨fs2, tr1 ++ [.fetchSuccess snap.version_number, .envFileWrite envContent,
        .trackerWrite (trackerKey ctx.org ctx.project ctx.environment) snap.version_number]
      ++ trOut, .completed⟩

/-- The rollback command end to end.  `options.target` is checked by JS
truthiness, so a missing target and an explicit `--target 0` both fail. -/
def rollbackCommand (inp : RollbackInputs) (fs : LocalFS) (remote : Remote) :
    RunResult :=
  let json := inp.options.json
  if !inp.authOk then cmdCatch "ROLLBACK_ERROR" json fs [] authRequiredError
  else if !(match inp.target with | some n => !(n = 0) | none => false) then
    cmdCatch "ROLLBACK_ERROR" json fs [] ⟨none, "--target flag is required"⟩
  else
    let t := inp.target.getD 0
    match resolveContext inp.options inp.sharedFile inp.localFile false with
    | .error (.configurationError m) =>
      cmdCatch "ROLLBACK_ERROR" json fs [] ⟨some "CONFIGURATION_ERROR", m⟩
    | .ok none =>
      cmdCatch "ROLLBACK_ERROR" json fs []
        ⟨none, "Context not resolved. Use flags or create .envsimple file."⟩
    | .ok (some ctx) =>
      match lookupEnvId remote ctx with
      | .error e => cmdCatch "ROLLBACK_ERROR" json fs [] e
      | .ok _ =>
        let tr0 := [Effect.rollbackRequest t]
        match remoteRollback remote t with
        | (_, .netError) => cmdCatch "ROLLBACK_ERROR" json fs tr0 networkError
        | (_, .notFound) =>
          cmdCatch "ROLLBACK_ERROR" json fs tr0 ⟨some "NOT_FOUND", "Version not found"⟩
        | (remote1, .success fromV toV newV) =>
          rollbackAfterRemote inp fs remote1 ctx fromV toV newV
            (tr0 ++ [.rollbackSuccess fromV toV newV])

/-! ## Print (src `commands/print.ts`) -/

/-- What print reports: the JSON payload's `keys` mapping and the non-JSON
display lines (key, displayed value, override marker).  The displayed value is
the working-file value; the override mapping only drives the `(override)`
marker. -/
structure PrintResult where
  reportedKeys : List (String × String)
  displayed : List (String × String × Bool)
deriving DecidableEq, Repr

/-- The print command on the working-file content and the local overrides. -/
def printCommand (envContent : String) (overrides : List (String × String)) :
    PrintResult :=
  if jsTrim envContent = "" then ⟨[], []⟩
  else
    let env := parseEnvContent envContent
    ⟨env, (sortEntriesJS env).map (fun p => (p.1, p.2, recHas overrides p.1))⟩

/-! ## Derived notions used by the statements -/

/-- Extensional equality of string mappings. -/
def recEquiv (a b : List (String × String)) : Prop :=
  ∀ k, recGet? a k = recGet? b k

/-- Pure line-ending normalization, written from the spec words ("normalized
for line-ending differences") for comparison against the pull command's actual
normalization, which additionally trims. -/
def lineEndingNorm (s : String) : String := ⟨replCRLF s.data⟩

/-- The three-stage fallback `flag || local || shared` used for each field of
the resolved context. -/
def resolvedField (flag localVal sharedVal : Option String) : Option String :=
  jsOrS flag (jsOrS localVal sharedVal)

/-- Does the effect list contain a backup capture? -/
def hasBackupWrite (tr : List Effect) : Prop :=
  ∃ c, Effect.backupWrite c ∈ tr

/-- Count of push submissions in a trace. -/
def pushRequestCount (tr : List Effect) : Nat :=
  tr.countP (fun e => match e with | .pushRequest _ _ => true | _ => false)

/-- Count of occurrences of the forced-push confirmation prompt in a trace. -/
def forcePromptCount (tr : List Effect) : Nat :=
  tr.countP (fun e => e = Effect.promptConfirm "\nPush anyway (forced push)?")

/-- Was any push submission accepted by the remote? -/
def pushSucceeded (tr : List Effect) : Prop :=
  ∃ vn forced, Effect.pushSuccess vn forced ∈ tr

/-- Did a snapshot fetch succeed? -/
def fetchSucceeded (tr : List Effect) : Prop :=
  ∃ vn, Effect.fetchSuccess vn ∈ tr

/-- Did the remote rollback call succeed? -/
def rollbackSucceeded (tr : List Effect) : Prop :=
  ∃ f t v, Effect.rollbackSuccess f t v ∈ tr

/-! ## Concrete fixtures for witnesses and counterexamples -/

/-- A remote with one org/project/environment and seven pushed versions. -/
def remoteSeven : Remote :=
  ⟨["acme"], fun _ => [("pay", "pid")], fun _ => [("prod", "eid")],
    ["v1", "v2", "v3", "v4", "v5", "v6", "v7"], true, true, true⟩

/-- A working file plus a tracker entry whose base version 5 is stale with
respect to `remoteSeven` (current version 7). -/
def fsTracked : LocalFS :=
  ⟨some "A=1\n", none,
    [(trackerKey "acme" "pay" "prod", ⟨"acme", "pay", "prod", 5, "T"⟩)]⟩

/-- Global options with no flags set. -/
def optsPlain : CLIOptions := ⟨none, none, none, false, false, false⟩

/-- Global options in JSON output mode. -/
def optsJson : CLIOptions := ⟨none, none, none, true, false, false⟩

/-- A well-formed `.envsimple` file for the fixture context. -/
def sharedAcme : Option SharedFileData :=
  some (.obj (some "acme") (some "pay") (some "prod"))

/-! ## Record lemmas -/

theorem recHas_nil {β : Type} (k : String) : recHas ([] : List (String × β)) k = false := rfl

theorem recHas_cons {β : Type} (p : String × β) (r : List (String × β)) (k : String) :
    recHas (p :: r) k = (decide (p.1 = k) || recHas r k) := by
  simp [recHas]

theorem recGet?_nil {β : Type} (k : String) : recGet? ([] : List (String × β)) k = none := rfl

theorem recGet?_cons {β : Type} (p : String × β) (r : List (String × β)) (k : String) :
    recGet? (p :: r) k = if p.1 = k then some p.2 else recGet? r k := by
  by_cases h : p.1 = k <;> simp [recGet?, List.find?_cons, h]

theorem recGet?_isSome_eq_recHas {β : Type} (r : List (String × β)) (k : String) :
    (recGet? r k).isSome = recHas r k := by
  induction r with
  | nil => rfl
  | cons p tl ih =>
    by_cases h : p.1 = k <;> simp [recGet?_cons, recHas_cons, h, ih]

theorem recGet?_eq_none_iff {β : Type} (r : List (String × β)) (k : String) :
    recGet? r k = none ↔ recHas r k = false := by
  rw [← recGet?_isSome_eq_recHas]
  cases recGet? r k <;> simp

theorem recHas_eq_mem_keys {β : Type} (r : List (String × β)) (k : String) :
    recHas r k = true ↔ k ∈ recKeys r := by
  induction r with
  | nil => simp [recHas_nil, recKeys]
  | cons p tl ih =>
    simp only [recHas_cons, Bool.or_eq_true, decide_eq_true_eq, ih, recKeys,
      List.map_cons, List.mem_cons]
    exact or_congr ⟨fun h => h.symm, fun h => h.symm⟩ Iff.rfl

theorem find?_eq_none_of_not_recHas {β : Type} {r : List (String × β)} {k : String}
    (h : recHas r k = false) : r.find? (fun p => p.1 = k) = none := by
  rw [List.find?_eq_none]
  rintro ⟨a, b⟩ hp
  simp only [decide_eq_true_eq]
  intro he
  have : recHas r k = true := by
    simp only [recHas, List.any_eq_true]
    exact ⟨(a, b), hp, by simp [he]⟩
  rw [this] at h
  cases h

theorem find?_map_setFun_self {β : Type} (r : List (String × β)) (k : String) (v : β) :
    (r.map (fun p => if p.1 = k then (k, v) else p)).find? (fun p => p.1 = k)
      = if recHas r k then some (k, v) else none := by
  induction r with
  | nil => simp [recHas_nil]
  | cons hd tl ih =>
    by_cases h : hd.1 = k
    · rw [List.map_cons, if_pos h, List.find?_cons_of_pos _ (by simp), recHas_cons]
      simp [h]
    · rw [List.map_cons, if_neg h, List.find?_cons_of_neg _ (by simp [h]), recHas_cons, ih]
      simp [h]

theorem find?_map_setFun_ne {β : Type} (r : List (String × β)) (k : String) (v : β)
    (k' : String) (h : k' ≠ k) :
    (r.map (fun p => if p.1 = k then (k, v) else p)).find? (fun p => p.1 = k')
      = r.find? (fun p => p.1 = k') := by
  induction r with
  | nil => simp
  | cons hd tl ih =>
    by_cases hh : hd.1 = k
    · have hkk' : ¬ ((k : String) = k') := fun he => h he.symm
      rw [List.map_cons, if_pos hh, List.find?_cons_of_neg _ (by simp [hkk']),
        List.find?_cons_of_neg _ (by simp [hh, hkk']), ih]
    · by_cases hk' : hd.1 = k'
      · rw [List.map_cons, if_neg hh, List.find?_cons_of_pos _ (by simp [hk']),
          List.find?_cons_of_pos _ (by simp [hk'])]
      · rw [List.map_cons, if_neg hh, List.find?_cons_of_neg _ (by simp [hk']),
          List.find?_cons_of_neg _ (by simp [hk']), ih]

theorem recGet?_recSet_self {β : Type} (r : List (String × β)) (k : String) (v : β) :
    recGet? (recSet r k v) k = some v := by
  unfold recSet
  by_cases h : recHas r k
  · rw [if_pos h]
    unfold recGet?
    rw [find?_map_setFun_self, if_pos h]
    rfl
  · rw [if_neg h]
    unfold recGet?
    rw [List.find?_append, find?_eq_none_of_not_recHas (Bool.eq_false_iff.mpr h)]
    simp [List.find?_cons]

theorem recGet?_recSet_ne {β : Type} (r : List (String × β)) (k : String) (v : β)
    (k' : String) (h : k' ≠ k) :
    recGet? (recSet r k v) k' = recGet? r k' := by
  unfold recSet
  by_cases hh : recHas r k
  · rw [if_pos hh]
    unfold recGet?
    rw [find?_map_setFun_ne r k v k' h]
  · rw [if_neg hh]
    unfold recGet?
    rw [List.find?_append]
    have : List.find? (fun p => p.1 = k') [(k, v)] = none := by
      simp only [List.find?_cons, List.find?_nil]
      have hkk' : decide ((k, v).1 = k') = false := by
        simp only [decide_eq_false_iff_not]
        exact fun he => h he.symm
      rw [hkk']
    rw [this]
    simp

theorem recHas_recSet {β : Type} (r : List (String × β)) (k : String) (v : β)
    (k' : String) : recHas (recSet r k v) k' = (recHas r k' || decide (k' = k)) := by
  by_cases h : k' = k
  · subst h
    rw [← recGet?_isSome_eq_recHas, recGet?_recSet_self]
    simp
  · rw [← recGet?_isSome_eq_recHas, recGet?_recSet_ne r k v k' h,
      recGet?_isSome_eq_recHas]
    simp [h]

/-! ## Override-merge lemmas -/

theorem recGet?_applyOverrides {B O : List (String × String)}
    (hO : (recKeys O).Nodup) (k : String) :
    recGet? (applyOverrides B O) k
      = if recHas O k then recGet? O k else recGet? B k := by
  induction O generalizing B with
  | nil => simp [applyOverrides, recHas_nil]
  | cons p tl ih =>
    have htl : (recKeys tl).Nodup := by
      simp only [recKeys, List.map_cons, List.nodup_cons] at hO
      exact hO.2
    have hp : p.1 ∉ recKeys tl := by
      simp only [recKeys, List.map_cons, List.nodup_cons] at hO
      exact hO.1
    show recGet? (applyOverrides (recSet B p.1 p.2) tl) k = _
    rw [ih htl]
    by_cases hk : recHas tl k
    · rw [if_pos hk]
      have hkp : ¬ p.1 = k := by
        intro he
        exact hp (he ▸ (recHas_eq_mem_keys tl k).mp hk)
      rw [recHas_cons, recGet?_cons]
      simp [hkp, hk]
    · rw [if_neg hk]
      by_cases hkp : p.1 = k
      · subst hkp
        rw [recGet?_recSet_self, recHas_cons, recGet?_cons]
        simp
      · rw [recGet?_recSet_ne _ _ _ _ (fun he => hkp he.symm), recHas_cons, recGet?_cons]
        simp [hkp, Bool.eq_false_iff.mpr hk]

theorem recHas_applyOverrides {B O : List (String × String)}
    (hO : (recKeys O).Nodup) (k : String) :
    recHas (applyOverrides B O) k = (recHas B k || recHas O k) := by
  rw [← recGet?_isSome_eq_recHas, recGet?_applyOverrides hO]
  by_cases h : recHas O k
  · rw [if_pos h, recGet?_isSome_eq_recHas]
    simp [h]
  · rw [if_neg h, recGet?_isSome_eq_recHas]
    simp [Bool.eq_false_iff.mpr h]

/-! ## Permutation and no-duplicate lemmas for mappings -/

theorem recGet?_eq_some_iff_mem {r : List (String × String)}
    (h : (recKeys r).Nodup) (k : String) (v : String) :
    recGet? r k = some v ↔ (k, v) ∈ r := by
  induction r with
  | nil => simp [recGet?_nil]
  | cons p tl ih =>
    have htl : (recKeys tl).Nodup := by
      simp only [recKeys, List.map_cons, List.nodup_cons] at h
      exact h.2
    have hp : p.1 ∉ recKeys tl := by
      simp only [recKeys, List.map_cons, List.nodup_cons] at h
      exact h.1
    rw [recGet?_cons]
    by_cases hk : p.1 = k
    · subst hk
      constructor
      · intro hv
        simp only [if_true, eq_self_iff_true, if_pos, Option.some.injEq] at hv
        exact List.mem_cons.mpr (Or.inl (by rw [← hv]))
      · intro hv
        rcases List.mem_cons.mp hv with h1 | h1
        · rw [if_pos rfl]
          have h2 : v = p.2 := by
            have := congrArg Prod.snd h1
            simpa using this
          rw [h2]
        · exfalso
          exact hp ((recHas_eq_mem_keys tl p.1).mp (by
            simp only [recHas, List.any_eq_true]
            exact ⟨(p.1, v), h1, by simp⟩))
    · simp only [if_neg hk, ih htl, List.mem_cons]
      constructor
      · intro hv
        exact Or.inr hv
      · intro hv
        rcases hv with h1 | h1
        · exfalso
          apply hk
          have := congrArg Prod.fst h1
          simpa using this.symm
        · exact h1

theorem recGet?_eq_of_perm {a b : List (String × String)}
    (hab : a.Perm b) (hb : (recKeys b).Nodup) (k : String) :
    recGet? a k = recGet? b k := by
  have ha : (recKeys a).Nodup := (hab.map Prod.fst).symm.nodup hb
  cases hv : recGet? a k with
  | some v =>
    rw [(recGet?_eq_some_iff_mem hb k v).mpr (hab.mem_iff.mp
      ((recGet?_eq_some_iff_mem ha k v).mp hv))]
  | none =>
    have hhk : recHas a k = false := (recGet?_eq_none_iff a k).mp hv
    have : recHas b k = false := by
      by_contra hc
      have hbt : recHas b k = true := Bool.of_not_eq_false hc
      have hmem : k ∈ recKeys a := (hab.map Prod.fst).mem_iff.mpr
        ((recHas_eq_mem_keys b k).mp hbt)
      rw [(recHas_eq_mem_keys a k).mpr hmem] at hhk
      cases hhk
    rw [Eq.symm ((recGet?_eq_none_iff b k).mpr this)]

theorem foldl_recSet_of_fresh {β : Type} (l : List (String × β)) :
    ∀ acc : List (String × β), (recKeys l).Nodup →
    (∀ k ∈ recKeys l, recHas acc k = false) →
    l.foldl (fun r p => recSet r p.1 p.2) acc = acc ++ l := by
  induction l with
  | nil => intro acc _ _; simp
  | cons p tl ih =>
    intro acc hl hacc
    have htl : (recKeys tl).Nodup := by
      simp only [recKeys, List.map_cons, List.nodup_cons] at hl
      exact hl.2
    have hp : p.1 ∉ recKeys tl := by
      simp only [recKeys, List.map_cons, List.nodup_cons] at hl
      exact hl.1
    have hpacc : recHas acc p.1 = false := hacc p.1 (by simp [recKeys])
    have hset : recSet acc p.1 p.2 = acc ++ [(p.1, p.2)] := by
      unfold recSet
      rw [if_neg (by rw [hpacc]; exact Bool.false_ne_true)]
    rw [List.foldl_cons, hset, ih (acc ++ [(p.1, p.2)]) htl]
    · simp
    · intro k hk
      rw [← recGet?_isSome_eq_recHas]
      unfold recGet?
      rw [List.find?_append, find?_eq_none_of_not_recHas (hacc k (by simp [recKeys]; exact Or.inr (by simpa [recKeys] using hk)))]
      have hone : List.find? (fun q => q.1 = k) [(p.1, p.2)] = none := by
        simp only [List.find?_cons, List.find?_nil]
        have : decide ((p.1, p.2).1 = k) = false := by
          simp only [decide_eq_false_iff_not]
          intro he
          exact hp (he ▸ hk)
        rw [this]
      rw [hone]
      simp

/-! ## Claim C2 -/

/-- C2: for every base mapping `B` and overrides mapping `O` (a JS object, so
its keys are unique), `applyOverrides(B, O)` maps each key `k` to `O[k]` when
`k` is a key of `O` and to `B[k]` otherwise, and a key is present in the
result exactly when it is present in `B` or in `O`: keys present only in `O`
are added and `O` strictly takes precedence. -/
theorem C2_applyOverrides_spec (B O : List (String × String))
    (hO : (recKeys O).Nodup) :
    (∀ k, recGet? (applyOverrides B O) k
        = if recHas O k then recGet? O k else recGet? B k)
    ∧ (∀ k, recHas (applyOverrides B O) k = (recHas B k || recHas O k)) :=
  ⟨fun k => recGet?_applyOverrides hO k, fun k => recHas_applyOverrides hO k⟩

theorem C2_applyOverrides_spec_witness :
    recGet? (applyOverrides [("A", "1"), ("B", "2")] [("B", "9"), ("C", "3")]) "B"
      = if recHas [("B", "9"), ("C", "3")] "B" then recGet? [("B", "9"), ("C", "3")] "B"
        else recGet? [("A", "1"), ("B", "2")] "B" :=
  (C2_applyOverrides_spec [("A", "1"), ("B", "2")] [("B", "9"), ("C", "3")]
    (by decide)).1 "B"

/-! ## Claim C10 -/

/-- C10: `updateVersionInfo(org, project, environment, v)` modifies at most
the tracker entry keyed `org/project/environment`: every other key's entry is
unchanged, and the entry at that key afterwards is the fresh record whose
`base_version` is `v`. -/
theorem C10_updateVersionInfo_frame (data : List (String × VersionTracker))
    (org project environment : String) (v : Nat) (now : String) :
    (∀ k', k' ≠ trackerKey org project environment →
      recGet? (updateVersionInfo data org project environment v now) k'
        = recGet? data k')
    ∧ recGet? (updateVersionInfo data org project environment v now)
        (trackerKey org project environment)
        = some ⟨org, project, environment, v, now⟩
    ∧ (recGet? (updateVersionInfo data org project environment v now)
        (trackerKey org project environment)).map VersionTracker.base_version
        = some v := by
  refine ⟨fun k' h => recGet?_recSet_ne data _ _ k' h, recGet?_recSet_self data _ _, ?_⟩
  have h := recGet?_recSet_self data (trackerKey org project environment)
    (⟨org, project, environment, v, now⟩ : VersionTracker)
  unfold updateVersionInfo
  rw [h]
  rfl

theorem C10_updateVersionInfo_frame_witness :
    recGet? (updateVersionInfo [("x/y/z", ⟨"x", "y", "z", 1, "t0"⟩)] "a" "b" "c" 4 "T")
      "x/y/z" = recGet? [("x/y/z", ⟨"x", "y", "z", 1, "t0"⟩)] "x/y/z" :=
  (C10_updateVersionInfo_frame [("x/y/z", ⟨"x", "y", "z", 1, "t0"⟩)] "a" "b" "c" 4 "T").1
    "x/y/z" (by decide)

/-! ## Claim C7 -/

/-- C7: a shared-context file that exists but is not an object, or is missing
any of `org`, `project`, `environment` (or has any of them empty), makes
`loadSharedContext` raise a `ConfigurationError` immediately; an existing file
is never treated as absent (`.ok none`). -/
theorem C7_loadSharedContext_missing_fields :
    (∀ o p e : Option String,
      ¬(truthy o = true ∧ truthy p = true ∧ truthy e = true) →
      loadSharedContext (some (.obj o p e))
        = .error (.configurationError
            ".envsimple must contain org, project, and environment fields"))
    ∧ loadSharedContext (some .notObject)
        = .error (.configurationError "Invalid .envsimple file format")
    ∧ (∀ f : SharedFileData, loadSharedContext (some f) ≠ .ok none) := by
  refine ⟨?_, rfl, ?_⟩
  · intro o p e h
    have hcond : ¬ ((truthy o && truthy p && truthy e) = true) := by
      simp only [Bool.and_eq_true]
      tauto
    simp only [loadSharedContext, if_neg hcond]
  · intro f
    cases f with
    | notObject => simp [loadSharedContext]
    | obj o p e =>
      simp only [loadSharedContext]
      by_cases h : (truthy o && truthy p && truthy e) = true
      · rw [if_pos h]
        simp
      · rw [if_neg h]
        simp

theorem C7_loadSharedContext_missing_fields_witness :
    loadSharedContext (some (.obj (some "a") none (some "c")))
      = .error (.configurationError
          ".envsimple must contain org, project, and environment fields") :=
  C7_loadSharedContext_missing_fields.1 (some "a") none (some "c") (by decide)

/-! ## Claim C4 -/

/-- C4 as stated is false: `resolveContext` loads the shared context file
before the flags check, so with all three flags supplied but a malformed
`.envsimple` present it raises a configuration error instead of returning the
flags context. -/
theorem C4_resolveContext_counterexample :
    resolveContext ⟨some "a", some "b", some "c", false, false, false⟩
        (some .notObject) none false
      = .error (.configurationError "Invalid .envsimple file format")
    ∧ resolveContext ⟨some "a", some "b", some "c", false, false, false⟩
        (some .notObject) none false
      ≠ .ok (some ⟨"a", "b", "c", .flags⟩) := by
  constructor
  · rfl
  · intro h
    exact Except.noConfusion h

/-- C4 (amended): provided loading the shared context succeeds, (1) when all
three fields are supplied (non-empty) via flags the result is exactly those
values with source `flags`; (2) otherwise any resolved context has each field
equal to the flag value, else the local-context value, else the shared-context
value, with source `local` exactly when a local context file was loaded (and
not skipped), `shared` otherwise; (3) when the org field (similarly any field)
resolves to nothing truthy the result is `null`; and (4) the spec's concrete
instance: flags org `a`, local project `p` / environment `e`, shared all set
resolves to (`a`, `p`, `e`) with source `local`. -/
theorem C4_resolveContext_amended (options : CLIOptions)
    (sharedFile : Option SharedFileData) (localFile : Option LocalContext)
    (skipLocal : Bool) (shared : Option SharedContext)
    (hsh : loadSharedContext sharedFile = .ok shared) :
    ((truthy options.org = true ∧ truthy options.project = true
        ∧ truthy options.environment = true) →
      resolveContext options sharedFile localFile skipLocal
        = .ok (some ⟨options.org.getD "", options.project.getD "",
            options.environment.getD "", .flags⟩))
    ∧ (¬(truthy options.org = true ∧ truthy options.project = true
        ∧ truthy options.environment = true) →
      ∀ c, resolveContext options sharedFile localFile skipLocal = .ok (some c) →
        c.org = (resolvedField options.org
            ((if skipLocal then none else localFile).bind LocalContext.org)
            (shared.map SharedContext.org)).getD ""
        ∧ c.project = (resolvedField options.project
            ((if skipLocal then none else localFile).bind LocalContext.project)
            (shared.map SharedContext.project)).getD ""
        ∧ c.environment = (resolvedField options.environment
            ((if skipLocal then none else localFile).bind LocalContext.environment)
            (shared.map SharedContext.environment)).getD ""
        ∧ c.source = (if (if skipLocal then none else localFile).isSome
            then CtxSource.localFile else CtxSource.sharedFile))
    ∧ (¬(truthy options.org = true ∧ truthy options.project = true
        ∧ truthy options.environment = true) →
      truthy (resolvedField options.org
          ((if skipLocal then none else localFile).bind LocalContext.org)
          (shared.map SharedContext.org)) = false →
      resolveContext options sharedFile localFile skipLocal = .ok none)
    ∧ resolveContext ⟨some "a", none, none, false, false, false⟩
        (some (.obj (some "s") (some "sp") (some "se")))
        (some ⟨none, some "p", some "e", []⟩) false
      = .ok (some ⟨"a", "p", "e", .localFile⟩) := by
  have hmain : resolveContext options sharedFile localFile skipLocal =
      (if truthy options.org && truthy options.project && truthy options.environment then
        .ok (some ⟨options.org.getD "", options.project.getD "",
          options.environment.getD "", .flags⟩)
      else if truthy (jsOrS options.org
            (jsOrS ((if skipLocal then none else localFile).bind LocalContext.org)
              (shared.map SharedContext.org)))
          && truthy (jsOrS options.project
            (jsOrS ((if skipLocal then none else localFile).bind LocalContext.project)
              (shared.map SharedContext.project)))
          && truthy (jsOrS options.environment
            (jsOrS ((if skipLocal then none else localFile).bind LocalContext.environment)
              (shared.map SharedContext.environment))) then
        .ok (some ⟨(jsOrS options.org
            (jsOrS ((if skipLocal then none else localFile).bind LocalContext.org)
              (shared.map SharedContext.org))).getD "",
          (jsOrS options.project
            (jsOrS ((if skipLocal then none else localFile).bind LocalContext.project)
              (shared.map SharedContext.project))).getD "",
          (jsOrS options.environment
            (jsOrS ((if skipLocal then none else localFile).bind LocalContext.environment)
              (shared.map SharedContext.environment))).getD "",
          if (if skipLocal then none else localFile).isSome then .localFile else .sharedFile⟩)
      else
        .ok none) := by
    unfold resolveContext
    rw [hsh]
  refine ⟨?_, ?_, ?_, by rfl⟩
  · intro h
    rw [hmain, if_pos (by simp only [Bool.and_eq_true]; tauto)]
  · intro h c hc
    rw [hmain, if_neg (by simp only [Bool.and_eq_true]; tauto)] at hc
    by_cases h2 : (truthy (jsOrS options.org
          (jsOrS ((if skipLocal then none else localFile).bind LocalContext.org)
            (shared.map SharedContext.org)))
        && truthy (jsOrS options.project
          (jsOrS ((if skipLocal then none else localFile).bind LocalContext.project)
            (shared.map SharedContext.project)))
        && truthy (jsOrS options.environment
          (jsOrS ((if skipLocal then none else localFile).bind LocalContext.environment)
            (shared.map SharedContext.environment)))) = true
    · rw [if_pos h2] at hc
      have hcc := Option.some.inj (Except.ok.inj hc)
      rw [← hcc]
      exact ⟨rfl, rfl, rfl, rfl⟩
    · rw [if_neg h2] at hc
      exact Option.noConfusion (Except.ok.inj hc)
  · intro h h2
    rw [hmain, if_neg (by simp only [Bool.and_eq_true]; tauto)]
    have h3 : (truthy (jsOrS options.org
        (jsOrS ((if skipLocal then none else localFile).bind LocalContext.org)
          (shared.map SharedContext.org)))
        && truthy (jsOrS options.project
          (jsOrS ((if skipLocal then none else localFile).bind LocalContext.project)
            (shared.map SharedContext.project)))
        && truthy (jsOrS options.environment
          (jsOrS ((if skipLocal then none else localFile).bind LocalContext.environment)
            (shared.map SharedContext.environment)))) = false := by
      unfold resolvedField at h2
      simp [h2]
    rw [if_neg (by rw [h3]; exact Bool.false_ne_true)]

theorem C4_resolveContext_amended_witness :
    resolveContext ⟨some "a", some "b", some "c", false, false, false⟩
        sharedAcme none false
      = .ok (some ⟨"a", "b", "c", .flags⟩) :=
  (C4_resolveContext_amended ⟨some "a", some "b", some "c", false, false, false⟩
    sharedAcme none false (some ⟨"acme", "pay", "prod"⟩) (by rfl)).1 (by decide)

/-! ## Split/join lemmas -/

theorem splitChL_cons_self (c : Char) (xs : List Char) :
    splitChL c (c :: xs) = [] :: splitChL c xs := by
  conv_lhs => unfold splitChL
  rw [if_pos rfl]

theorem splitChL_cons_of_ne {x c : Char} (xs : List Char) (h : ¬ x = c) :
    splitChL c (x :: xs)
      = (x :: (splitChL c xs).headI) :: (splitChL c xs).tail := by
  conv_lhs => unfold splitChL
  rw [if_neg h]

theorem splitChL_of_not_mem {c : Char} {l : List Char} (h : c ∉ l) :
    splitChL c l = [l] := by
  induction l with
  | nil => rfl
  | cons x xs ih =>
    have hx : ¬ x = c := fun he => h (he ▸ List.mem_cons_self x xs)
    have hxs : c ∉ xs := fun hm => h (List.mem_cons_of_mem x hm)
    rw [splitChL_cons_of_ne xs hx, ih hxs]
    rfl

theorem splitChL_append_cons {c : Char} {a : List Char} (b : List Char)
    (h : c ∉ a) : splitChL c (a ++ c :: b) = a :: splitChL c b := by
  induction a with
  | nil =>
    rw [List.nil_append, splitChL_cons_self]
  | cons x xs ih =>
    have hx : ¬ x = c := fun he => h (he ▸ List.mem_cons_self x xs)
    have hxs : c ∉ xs := fun hm => h (List.mem_cons_of_mem x hm)
    rw [List.cons_append, splitChL_cons_of_ne _ hx, ih hxs]
    rfl

theorem splitChL_interL_append {c : Char} :
    ∀ L : List (List Char), L ≠ [] → (∀ l ∈ L, c ∉ l) →
      splitChL c (interL c L ++ [c]) = L ++ [[]] := by
  intro L
  induction L with
  | nil => intro h; exact absurd rfl h
  | cons x tl ih =>
    intro _ hmem
    cases tl with
    | nil =>
      have hx : c ∉ x := hmem x (by simp)
      show splitChL c (x ++ [c]) = [x, []]
      rw [show (x ++ [c] : List Char) = x ++ c :: [] from rfl,
        splitChL_append_cons [] hx]
      rfl
    | cons y ys =>
      have hx : c ∉ x := hmem x (by simp)
      show splitChL c ((x ++ c :: interL c (y :: ys)) ++ [c]) = x :: ((y :: ys) ++ [[]])
      rw [List.append_assoc, List.cons_append, splitChL_append_cons _ hx,
        ih (by simp) (fun l hl => hmem l (List.mem_cons_of_mem x hl))]

/-! ## Trim lemmas -/

theorem length_dropWhile_le (p : Char → Bool) (l : List Char) :
    (l.dropWhile p).length ≤ l.length := by
  induction l with
  | nil => simp
  | cons x xs ih =>
    rw [List.dropWhile_cons]
    by_cases h : p x = true
    · rw [if_pos h]
      exact le_trans ih (Nat.le_succ _)
    · rw [if_neg h]

theorem trimLeftL_eq_self {l : List Char}
    (h : ∀ x, l.head? = some x → isWs x = false) : trimLeftL l = l := by
  cases l with
  | nil => rfl
  | cons x xs =>
    unfold trimLeftL
    rw [List.dropWhile_cons, if_neg (by rw [h x rfl]; exact Bool.false_ne_true)]

theorem trimRightL_eq_self {l : List Char}
    (h : ∀ x, l.getLast? = some x → isWs x = false) : trimRightL l = l := by
  unfold trimRightL
  rw [show l.reverse.dropWhile isWs = l.reverse from
    trimLeftL_eq_self (fun x hx => h x (by rwa [List.head?_reverse] at hx)),
    List.reverse_reverse]

theorem trimL_eq_self {l : List Char}
    (h1 : ∀ x, l.head? = some x → isWs x = false)
    (h2 : ∀ x, l.getLast? = some x → isWs x = false) : trimL l = l := by
  unfold trimL
  rw [trimLeftL_eq_self h1, trimRightL_eq_self h2]

theorem length_trimRightL_le (l : List Char) :
    (trimRightL l).length ≤ l.length := by
  unfold trimRightL
  rw [List.length_reverse]
  calc (l.reverse.dropWhile isWs).length ≤ l.reverse.length :=
        length_dropWhile_le isWs l.reverse
    _ = l.length := List.length_reverse l

theorem length_trimL_le (l : List Char) : (trimL l).length ≤ l.length := by
  unfold trimL
  exact le_trans (length_trimRightL_le _) (length_dropWhile_le isWs l)

theorem head_not_ws_of_trimL_self {l : List Char} (h : trimL l = l) :
    ∀ x, l.head? = some x → isWs x = false := by
  intro x hx
  by_contra hc
  have hws : isWs x = true := Bool.of_not_eq_false hc
  cases l with
  | nil => cases hx
  | cons y ys =>
    have hxy : y = x := by
      injection hx
    subst hxy
    have h1 : trimLeftL (y :: ys) = trimLeftL ys := by
      unfold trimLeftL
      rw [List.dropWhile_cons, if_pos hws]
    have h2 : (trimL (y :: ys)).length ≤ ys.length := by
      unfold trimL
      rw [h1]
      exact le_trans (length_trimRightL_le _) (length_dropWhile_le isWs ys)
    rw [h] at h2
    simp only [List.length_cons] at h2
    exact absurd h2 (Nat.not_succ_le_self ys.length)

theorem dropWhile_eq_self_of_length {p : Char → Bool} {l : List Char}
    (h : (l.dropWhile p).length = l.length) : l.dropWhile p = l := by
  cases l with
  | nil => rfl
  | cons x xs =>
    rw [List.dropWhile_cons]
    by_cases hp : p x = true
    · exfalso
      rw [List.dropWhile_cons, if_pos hp] at h
      have := length_dropWhile_le p xs
      rw [h] at this
      simp only [List.length_cons] at this
      exact absurd this (Nat.not_succ_le_self xs.length)
    · rw [if_neg hp]

theorem last_not_ws_of_trimL_self {l : List Char} (h : trimL l = l) :
    ∀ x, l.getLast? = some x → isWs x = false := by
  intro x hx
  by_contra hc
  have hws : isWs x = true := Bool.of_not_eq_false hc
  have hlen : (trimLeftL l).length = l.length := by
    have e1 : (trimL l).length = l.length := by rw [h]
    have e2 : (trimL l).length ≤ (trimLeftL l).length := length_trimRightL_le _
    have e3 : (trimLeftL l).length ≤ l.length := length_dropWhile_le isWs l
    omega
  have hfix : trimLeftL l = l := dropWhile_eq_self_of_length hlen
  have hR : trimRightL l = l := by
    have : trimL l = trimRightL l := by
      unfold trimL
      rw [hfix]
    rw [← this, h]
  have hrev : l.reverse.head? = some x := by
    rw [List.head?_reverse]
    exact hx
  cases hl : l.reverse with
  | nil =>
    rw [hl] at hrev
    cases hrev
  | cons y ys =>
    have hxy : y = x := by
      rw [hl] at hrev
      injection hrev
    subst hxy
    have h1 : l.reverse.dropWhile isWs = ys.dropWhile isWs := by
      rw [hl, List.dropWhile_cons, if_pos hws]
    have h2 : (trimRightL l).length ≤ ys.length := by
      unfold trimRightL
      rw [List.length_reverse, h1]
      exact length_dropWhile_le isWs ys
    rw [hR] at h2
    have : l.length = ys.length + 1 := by
      have := congrArg List.length hl
      simpa [List.length_reverse] using this
    omega

/-! ## First-`=` and quote-strip lemmas -/

theorem idxOf?_append_cons {c : Char} {a : List Char} (b : List Char)
    (h : c ∉ a) : idxOf? c (a ++ c :: b) = some a.length := by
  induction a with
  | nil =>
    rw [List.nil_append]
    unfold idxOf?
    rw [if_pos rfl]
    rfl
  | cons x xs ih =>
    have hx : ¬ x = c := fun he => h (he ▸ List.mem_cons_self x xs)
    have hxs : c ∉ xs := fun hm => h (List.mem_cons_of_mem x hm)
    rw [List.cons_append]
    conv_lhs => unfold idxOf?
    rw [if_neg hx, ih hxs]
    rfl

theorem startsWithCh_cons (c x : Char) (l : List Char) :
    startsWithCh c (x :: l) = decide (x = c) := rfl

theorem endsWithCh_append_self (c : Char) (l : List Char) :
    endsWithCh c (l ++ [c]) = true := by
  unfold endsWithCh
  rw [List.reverse_append, List.reverse_singleton, List.singleton_append,
    startsWithCh_cons]
  simp

theorem head?_append_of_ne_nil {a : List Char} (b : List Char) (h : a ≠ []) :
    (a ++ b).head? = a.head? := by
  cases a with
  | nil => exact absurd rfl h
  | cons x xs => rfl

theorem getLast?_append_cons (a : List Char) (c : Char) (b : List Char) :
    (a ++ c :: b).getLast? = (c :: b).getLast? := by
  rw [List.getLast?_append]
  rcases (⟨(c :: b).getLast (by simp), List.getLast?_eq_getLast _ _⟩ :
      ∃ y, (c :: b).getLast? = some y) with ⟨y, hy⟩
  rw [hy]
  rfl

theorem getLast?_append_singleton (a : List Char) (c : Char) :
    (a ++ [c]).getLast? = some c := by
  rw [List.getLast?_append]
  rfl

theorem jsSubstringL_strip (q : Char) (v : List Char) :
    jsSubstringL (q :: v ++ [q]) 1 ((q :: v ++ [q]).length - 1) = v := by
  have hlen : (q :: v ++ [q]).length = v.length + 2 := by
    simp
  rw [hlen]
  unfold jsSubstringL
  have h1 : max 1 (v.length + 2 - 1) = v.length + 1 := by omega
  have h2 : min 1 (v.length + 2 - 1) = 1 := by omega
  rw [h1, h2]
  have h3 : (q :: v ++ [q]).take (v.length + 1) = q :: v := by
    rw [show v.length + 1 = (q :: v).length from rfl, List.take_left]
  rw [h3]
  rfl

theorem quoteWrapped_quoted (v : List Char) :
    quoteWrapped ('"' :: v ++ ['"']) = true := by
  unfold quoteWrapped
  rw [endsWithCh_append_self]
  rfl

/-! ## The formatted-entry line parses back -/

theorem no_nl_formatEntryL {k v : String} (hk : '\n' ∉ k.data)
    (hv : '\n' ∉ v.data) : '\n' ∉ formatEntryL k v := by
  unfold formatEntryL
  intro hmem
  rw [List.mem_append] at hmem
  rcases hmem with h1 | h1
  · exact hk h1
  · rw [List.mem_cons] at h1
    rcases h1 with h2 | h2
    · exact absurd h2 (by decide)
    · by_cases hq : needsQuotes v = true
      · rw [if_pos hq, List.mem_append, List.mem_cons, List.mem_singleton] at h2
        rcases h2 with (h3 | h3) | h3
        · exact absurd h3 (by decide)
        · exact hv h3
        · exact absurd h3 (by decide)
      · rw [if_neg hq] at h2
        exact hv h2

/-- The conditions on one entry under which the formatted line parses back to
exactly that binding: the key is non-empty, trim-invariant, free of `=`, `\n`,
and does not begin with `#`; the value is trim-invariant, free of `\n`, and —
when it is not quoted on output — is not strippable as a quote-wrapped string
of length at least 2. -/
def entryRoundTrips (k v : String) : Prop :=
  k.data ≠ [] ∧ trimL k.data = k.data ∧ '=' ∉ k.data ∧ '\n' ∉ k.data
    ∧ k.data.head? ≠ some '#'
    ∧ trimL v.data = v.data ∧ '\n' ∉ v.data
    ∧ (needsQuotes v = true ∨ quoteWrapped v.data = false ∨ v.data.length ≤ 1)

instance (k v : String) : Decidable (entryRoundTrips k v) := by
  unfold entryRoundTrips
  infer_instance

theorem trimL_formatted_value (v : String) (hvtr : trimL v.data = v.data) :
    trimL (if needsQuotes v then '"' :: v.data ++ ['"'] else v.data)
      = (if needsQuotes v then '"' :: v.data ++ ['"'] else v.data) := by
  by_cases hnq : needsQuotes v = true
  · rw [if_pos hnq]
    apply trimL_eq_self
    · intro x hx
      rw [head?_append_of_ne_nil _ (by simp)] at hx
      injection hx with h1
      rw [← h1]
      rfl
    · intro x hx
      rw [getLast?_append_singleton] at hx
      injection hx with h1
      rw [← h1]
      rfl
  · rw [if_neg hnq]
    exact hvtr

theorem parsed_value_of_formatted (v : String)
    (hquo : needsQuotes v = true ∨ quoteWrapped v.data = false
      ∨ v.data.length ≤ 1) :
    (if quoteWrapped (if needsQuotes v then '"' :: v.data ++ ['"'] else v.data)
      then jsSubstringL (if needsQuotes v then '"' :: v.data ++ ['"'] else v.data) 1
        ((if needsQuotes v then '"' :: v.data ++ ['"'] else v.data).length - 1)
      else (if needsQuotes v then '"' :: v.data ++ ['"'] else v.data)) = v.data := by
  by_cases hnq : needsQuotes v = true
  · rw [if_pos hnq, if_pos (quoteWrapped_quoted v.data), jsSubstringL_strip]
  · rw [if_neg hnq]
    rcases hquo with hq | hq | hq
    · exact absurd hq hnq
    · rw [if_neg (by rw [hq]; exact Bool.false_ne_true)]
    · by_cases hw : quoteWrapped v.data = true
      · rw [if_pos hw]
        cases hl : v.data with
        | nil =>
          rw [hl] at hw
          exact absurd hw (by decide)
        | cons a as =>
          cases as with
          | nil => rfl
          | cons b bs =>
            exfalso
            have h2 : v.data.length ≤ 1 := hq
            rw [hl] at h2
            simp at h2
      · rw [if_neg hw]

theorem parseLineInto_formatEntry (acc : List (String × String)) (k v : String)
    (h : entryRoundTrips k v) :
    parseLineInto acc (formatEntryL k v) = recSet acc k v := by
  obtain ⟨hk0, hktr, hkeq, _, hkhash, hvtr, _, hquo⟩ := h
  have hkhead : ∀ x, k.data.head? = some x → isWs x = false :=
    head_not_ws_of_trimL_self hktr
  have hvlast : ∀ x, v.data.getLast? = some x → isWs x = false :=
    last_not_ws_of_trimL_self hvtr
  have hline : formatEntryL k v
      = k.data ++ '=' :: (if needsQuotes v then '"' :: v.data ++ ['"'] else v.data) :=
    rfl
  have htrim : trimL (k.data ++ '=' :: (if needsQuotes v then '"' :: v.data ++ ['"'] else v.data))
      = k.data ++ '=' :: (if needsQuotes v then '"' :: v.data ++ ['"'] else v.data) := by
    apply trimL_eq_self
    · intro x hx
      rw [head?_append_of_ne_nil _ hk0] at hx
      exact hkhead x hx
    · intro x hx
      rw [getLast?_append_cons] at hx
      by_cases hnq : needsQuotes v = true
      · rw [if_pos hnq, ← List.cons_append, getLast?_append_singleton] at hx
        injection hx with h1
        rw [← h1]
        rfl
      · rw [if_neg hnq] at hx
        cases hvd : v.data with
        | nil =>
          rw [hvd] at hx
          injection hx with h1
          rw [← h1]
          rfl
        | cons b bs =>
          rw [hvd, show ('=' :: b :: bs : List Char) = ['='] ++ b :: bs from rfl,
            getLast?_append_cons, ← hvd] at hx
          exact hvlast x hx
  have hne : (k.data ++ '=' :: (if needsQuotes v then '"' :: v.data ++ ['"'] else v.data)).isEmpty = false := by
    cases hd : k.data with
    | nil => exact absurd hd hk0
    | cons a as => rfl
  have hhash : startsWithCh '#' (k.data ++ '=' :: (if needsQuotes v then '"' :: v.data ++ ['"'] else v.data)) = false := by
    cases hd : k.data with
    | nil => exact absurd hd hk0
    | cons a as =>
      rw [List.cons_append, startsWithCh_cons]
      simp only [decide_eq_false_iff_not]
      intro he
      apply hkhash
      rw [hd, he]
      rfl
  have hidx : idxOf? '=' (k.data ++ '=' :: (if needsQuotes v then '"' :: v.data ++ ['"'] else v.data)) = some k.data.length :=
    idxOf?_append_cons _ hkeq
  have htake : (k.data ++ '=' :: (if needsQuotes v then '"' :: v.data ++ ['"'] else v.data)).take k.data.length = k.data :=
    List.take_left k.data _
  have hdrop : (k.data ++ '=' :: (if needsQuotes v then '"' :: v.data ++ ['"'] else v.data)).drop (k.data.length + 1)
      = (if needsQuotes v then '"' :: v.data ++ ['"'] else v.data) := by
    rw [List.drop_append 1]
    rfl
  rw [hline]
  unfold parseLineInto
  rw [htrim]
  simp only [hne, Bool.false_eq_true, if_false, hhash, hidx, htake, hdrop, hktr,
    trimL_formatted_value v hvtr, parsed_value_of_formatted v hquo]

/-! ## Collation-order lemmas -/

theorem natCompare_swap (a b : Nat) : (compare a b).swap = compare b a := by
  rcases Nat.lt_trichotomy a b with h | h | h
  · rw [Nat.compare_eq_lt.mpr h, Nat.compare_eq_gt.mpr h]
    rfl
  · subst h
    rw [Nat.compare_eq_eq.mpr rfl]
    rfl
  · rw [Nat.compare_eq_gt.mpr h, Nat.compare_eq_lt.mpr h]
    rfl

theorem ordering_then_swap (x y : Ordering) : (x.then y).swap = x.swap.then y.swap := by
  cases x <;> rfl

theorem lexNat_swap (a : List Nat) : ∀ b, (lexNat a b).swap = lexNat b a := by
  induction a with
  | nil =>
    intro b
    cases b <;> rfl
  | cons x xs ih =>
    intro b
    cases b with
    | nil => rfl
    | cons y ys =>
      rw [show lexNat (x :: xs) (y :: ys) = (compare x y).then (lexNat xs ys) from rfl,
        show lexNat (y :: ys) (x :: xs) = (compare y x).then (lexNat ys xs) from rfl,
        ordering_then_swap, natCompare_swap, ih ys]

theorem localeCompare_swap (a b : String) :
    (localeCompare a b).swap = localeCompare b a := by
  unfold localeCompare
  rw [ordering_then_swap, lexNat_swap, lexNat_swap]

theorem localeCompare_not_gt_of_not_lt {a b : String}
    (h : localeCompare a b ≠ Ordering.lt) : localeCompare b a ≠ Ordering.gt := by
  intro hg
  apply h
  have hs : (localeCompare b a).swap = localeCompare a b := localeCompare_swap b a
  rw [hg] at hs
  exact hs.symm

theorem localeCompare_not_gt_of_lt {a b : String}
    (h : localeCompare a b = Ordering.lt) : localeCompare a b ≠ Ordering.gt := by
  rw [h]
  intro hg
  cases hg

/-! ## The insertion sort used by `formatEnvContent` is key-ordered -/

theorem chain'_le_orderedInsert (x : String × String)
    (l : List (String × String))
    (h : l.Chain' (fun a b => localeCompare a.1 b.1 ≠ Ordering.gt)) :
    (List.orderedInsert (fun a b => localeCompare a.1 b.1 = Ordering.lt) x l).Chain'
      (fun a b => localeCompare a.1 b.1 ≠ Ordering.gt) := by
  induction l with
  | nil => simp [List.orderedInsert]
  | cons y ys ih =>
    rw [List.orderedInsert]
    by_cases hr : localeCompare x.1 y.1 = Ordering.lt
    · rw [if_pos hr]
      exact List.Chain'.cons (localeCompare_not_gt_of_lt hr) h
    · rw [if_neg hr]
      have hyx : localeCompare y.1 x.1 ≠ Ordering.gt :=
        localeCompare_not_gt_of_not_lt hr
      cases ys with
      | nil =>
        rw [List.orderedInsert]
        exact List.chain'_pair.mpr hyx
      | cons z zs =>
        have htl := ih h.tail
        rw [List.orderedInsert] at htl ⊢
        by_cases hz : localeCompare x.1 z.1 = Ordering.lt
        · rw [if_pos hz] at htl ⊢
          exact List.Chain'.cons hyx htl
        · rw [if_neg hz] at htl ⊢
          exact List.Chain'.cons (List.chain'_cons.mp h).1 htl

theorem chain'_le_sortEntriesJS (m : List (String × String)) :
    (sortEntriesJS m).Chain' (fun a b => localeCompare a.1 b.1 ≠ Ordering.gt) := by
  unfold sortEntriesJS
  induction m with
  | nil => simp [List.insertionSort]
  | cons x xs ih =>
    rw [List.insertionSort]
    exact chain'_le_orderedInsert x _ ih

/-! ## Round trip of `formatEnvContent` through `parseEnvContent` -/

theorem parseLineInto_empty_line (acc : List (String × String)) :
    parseLineInto acc [] = acc := rfl

theorem foldl_parseLineInto_map (L : List (String × String)) :
    ∀ acc, (∀ p ∈ L, entryRoundTrips p.1 p.2) →
    (L.map (fun p => formatEntryL p.1 p.2)).foldl parseLineInto acc
      = L.foldl (fun r p => recSet r p.1 p.2) acc := by
  induction L with
  | nil =>
    intro acc _
    rfl
  | cons p tl ih =>
    intro acc h
    rw [List.map_cons, List.foldl_cons, List.foldl_cons,
      parseLineInto_formatEntry acc p.1 p.2 (h p (by simp))]
    exact ih _ (fun q hq => h q (List.mem_cons_of_mem p hq))

/-! ## Claim C3 -/

/-- C3 as stated is false: the mapping with the single key `#A` (non-empty,
trim-invariant, newline-free value) formats to a line that parses as a
comment, so the round trip loses the binding. -/
theorem C3_roundtrip_counterexample :
    ("#A" : String) ≠ "" ∧ jsTrim "#A" = "#A" ∧ jsTrim "1" = "1"
    ∧ '\n' ∉ ("1" : String).data
    ∧ formatEnvContent [("#A", "1")] = "#A=1\n"
    ∧ parseEnvContent (formatEnvContent [("#A", "1")]) = []
    ∧ ¬ recEquiv (parseEnvContent (formatEnvContent [("#A", "1")])) [("#A", "1")] := by
  refine ⟨by decide, by decide, by decide, by decide, by decide, by decide, ?_⟩
  intro hc
  exact absurd (hc "#A") (by decide)

/-- C3 (amended): the round trip `parseEnvContent (formatEnvContent m) = m`
(as mappings) holds for mappings with unique keys whose entries satisfy
`entryRoundTrips`: beyond the claim's hypotheses (non-empty trim-invariant
keys, trim-invariant values free of newlines), keys must also contain no `=`
and no newline and must not begin with `#`, and an unquoted value must not be
spuriously strippable as a quote-wrapped string. -/
theorem C3_parse_format_roundtrip_amended (m : List (String × String))
    (hkeys : (recKeys m).Nodup)
    (h : ∀ p ∈ m, entryRoundTrips p.1 p.2) :
    recEquiv (parseEnvContent (formatEnvContent m)) m := by
  by_cases hm : m = []
  · subst hm
    intro k
    rfl
  · have hperm : (sortEntriesJS m).Perm m := List.perm_insertionSort _ m
    have hLne : sortEntriesJS m ≠ [] := by
      intro h0
      rw [h0] at hperm
      exact hm (hperm.symm.eq_nil)
    have hmemL : ∀ p ∈ sortEntriesJS m, entryRoundTrips p.1 p.2 :=
      fun p hp => h p (hperm.subset hp)
    have hLkeys : (recKeys (sortEntriesJS m)).Nodup :=
      ((hperm.map Prod.fst).symm.nodup hkeys : ((sortEntriesJS m).map Prod.fst).Nodup)
    have hlinesne : (sortEntriesJS m).map (fun p => formatEntryL p.1 p.2) ≠ [] := by
      intro h0
      exact hLne (List.map_eq_nil.mp h0)
    have hnonl : ∀ l ∈ (sortEntriesJS m).map (fun p => formatEntryL p.1 p.2),
        '\n' ∉ l := by
      intro l hl
      rcases List.mem_map.mp hl with ⟨p, hp, hpl⟩
      rw [← hpl]
      obtain ⟨_, _, _, hknl, _, _, hvnl, _⟩ := hmemL p hp
      exact no_nl_formatEntryL hknl hvnl
    have hstep : parseEnvContent (formatEnvContent m)
        = (sortEntriesJS m).foldl (fun r p => recSet r p.1 p.2) [] := by
      unfold parseEnvContent
      rw [show (formatEnvContent m).data
          = interL '\n' ((sortEntriesJS m).map (fun p => formatEntryL p.1 p.2)) ++ ['\n']
          from rfl,
        splitChL_interL_append _ hlinesne hnonl, List.foldl_append,
        foldl_parseLineInto_map _ [] hmemL]
      rfl
    have hfold : (sortEntriesJS m).foldl (fun r p => recSet r p.1 p.2) []
        = sortEntriesJS m := by
      rw [foldl_recSet_of_fresh (sortEntriesJS m) [] hLkeys
        (fun k _ => recHas_nil k)]
      rfl
    intro k
    rw [hstep, hfold]
    exact recGet?_eq_of_perm hperm hkeys k

theorem C3_parse_format_roundtrip_amended_witness :
    recGet? (parseEnvContent (formatEnvContent [("B", "2"), ("a", "1 x")])) "a"
      = recGet? [("B", "2"), ("a", "1 x")] "a" :=
  C3_parse_format_roundtrip_amended [("B", "2"), ("a", "1 x")]
    (by decide) (by decide) "a"

/-! ## Claim C6 -/

/-- C6 as stated is false: `formatEnvContent` sorts keys with `localeCompare`
(case-insensitive at the primary level), not by ordinal string comparison.
For keys `a` and `B` the output lists `a` first, while `B` precedes `a`
ordinally, as the spec-worded ordinal variant shows. -/
theorem C6_formatEnvContent_counterexample :
    formatEnvContent [("a", "1"), ("B", "2")] = "a=1\nB=2\n"
    ∧ formatEnvContentOrdinal [("a", "1"), ("B", "2")] = "B=2\na=1\n"
    ∧ formatEnvContent [("a", "1"), ("B", "2")]
      ≠ formatEnvContentOrdinal [("a", "1"), ("B", "2")]
    ∧ ordinalLt "B" "a" := by
  refine ⟨by decide, by decide, ?_, ?_⟩
  · intro h
    rw [show formatEnvContent [("a", "1"), ("B", "2")] = "a=1\nB=2\n" from by decide,
      show formatEnvContentOrdinal [("a", "1"), ("B", "2")] = "B=2\na=1\n" from by decide] at h
    exact absurd h (by decide)
  · unfold ordinalLt
    decide

/-- C6 (amended): for a non-empty mapping with unique, newline-free keys and
values, splitting the output of `formatEnvContent` on `'\n'` yields exactly
one `KEY=VALUE` line per entry followed by one empty trailing segment (so the
output ends with exactly one newline); the emitted entries are a permutation
of the mapping sorted ascending on keys by `localeCompare` (not ordinal
comparison); each line quotes its value exactly when the value contains
whitespace or `#`; and the empty mapping serializes to `"\n"`. -/
theorem C6_formatEnvContent_amended (m : List (String × String))
    (hm : m ≠ [])
    (hnl : ∀ p ∈ m, '\n' ∉ p.1.data ∧ '\n' ∉ p.2.data) :
    splitChL '\n' (formatEnvContent m).data
      = (sortEntriesJS m).map (fun p => formatEntryL p.1 p.2) ++ [[]]
    ∧ (sortEntriesJS m).Perm m
    ∧ (recKeys (sortEntriesJS m)).Chain' (fun a b => localeCompare a b ≠ Ordering.gt)
    ∧ (∀ p ∈ m, (needsQuotes p.2 = true →
        formatEntryL p.1 p.2 = p.1.data ++ '=' :: '"' :: p.2.data ++ ['"'])
      ∧ (needsQuotes p.2 = false → formatEntryL p.1 p.2 = p.1.data ++ '=' :: p.2.data))
    ∧ formatEnvContent [] = "\n" := by
  have hperm : (sortEntriesJS m).Perm m := List.perm_insertionSort _ m
  refine ⟨?_, hperm, ?_, ?_, by decide⟩
  · have hlinesne : (sortEntriesJS m).map (fun p => formatEntryL p.1 p.2) ≠ [] := by
      intro h0
      have hLne : sortEntriesJS m ≠ [] := by
        intro h1
        rw [h1] at hperm
        exact hm (hperm.symm.eq_nil)
      exact hLne (List.map_eq_nil.mp h0)
    have hnonl : ∀ l ∈ (sortEntriesJS m).map (fun p => formatEntryL p.1 p.2),
        '\n' ∉ l := by
      intro l hl
      rcases List.mem_map.mp hl with ⟨p, hp, hpl⟩
      rw [← hpl]
      have hpm := hperm.subset hp
      exact no_nl_formatEntryL (hnl p hpm).1 (hnl p hpm).2
    rw [show (formatEnvContent m).data
        = interL '\n' ((sortEntriesJS m).map (fun p => formatEntryL p.1 p.2)) ++ ['\n']
        from rfl]
    exact splitChL_interL_append _ hlinesne hnonl
  · exact (List.chain'_map Prod.fst).mpr (chain'_le_sortEntriesJS m)
  · intro p _
    constructor
    · intro hq
      unfold formatEntryL
      rw [if_pos hq]
      simp
    · intro hq
      unfold formatEntryL
      rw [if_neg (by rw [hq]; exact Bool.false_ne_true)]

theorem C6_formatEnvContent_amended_witness :
    splitChL '\n' (formatEnvContent [("b", "1"), ("A", "x y")]).data
      = (sortEntriesJS [("b", "1"), ("A", "x y")]).map
          (fun p => formatEntryL p.1 p.2) ++ [[]] :=
  (C6_formatEnvContent_amended [("b", "1"), ("A", "x y")] (by decide)
    (by decide)).1

/-! ## Claim C9 -/

/-- C9 states the repository's own documented behavior ("Print: Shows final
values with overrides applied"), but `printCommand` never applies the
overrides: it reports the parsed working-file value and only marks overridden
keys.  With `.env` containing `A=1` and local override `A=2`, print reports
`1` in both the JSON payload and the display list, not the override value
`2`. -/
theorem C9_print_overrides_code_bug :
    recGet? [("A", "2")] "A" = some "2"
    ∧ (printCommand "A=1\n" [("A", "2")]).reportedKeys = [("A", "1")]
    ∧ (printCommand "A=1\n" [("A", "2")]).displayed = [("A", "1", true)]
    ∧ recGet? (printCommand "A=1\n" [("A", "2")]).reportedKeys "A"
      ≠ recGet? [("A", "2")] "A" :=
  ⟨by decide, by decide, by decide, by decide⟩

/-! ## Claim C5 -/

/-- C5 as stated is false: with a whitespace-only working file (which differs
from the newly computed content under any pure line-ending normalization), the
pull command performs no backup, because its actual test also trims and
requires the trimmed current content to be non-empty. -/
theorem C5_pull_backup_counterexample :
    pullBackupStep false ⟨some "\n", none, []⟩ "A=1\n" "T0"
      = (⟨some "\n", none, []⟩, [])
    ∧ lineEndingNorm "\n" ≠ lineEndingNorm "A=1\n" := by
  constructor
  · decide
  · decide

theorem pullBackupStep_env_none (json : Bool) (fs : LocalFS)
    (envContent now : String) (h : fs.env = none) :
    pullBackupStep json fs envContent now = (fs, []) := by
  unfold pullBackupStep
  rw [h]

theorem pullBackupStep_env_some (json : Bool) (fs : LocalFS)
    (envContent now cur : String) (h : fs.env = some cur) :
    pullBackupStep json fs envContent now
      = if pullNormalize cur ≠ pullNormalize envContent ∧ pullNormalize cur ≠ "" then
          (match fs.backup with
            | some existing =>
              (⟨fs.env, some (existing ++ backupSeparator now ++ cur), fs.tracker⟩,
                [Effect.backupWrite cur]
                  ++ emitInfo json "✓ Appended to .env.copy (content mismatch detected)")
            | none =>
              (⟨fs.env, some cur, fs.tracker⟩,
                [Effect.backupWrite cur]
                  ++ emitInfo json "✓ Created .env.copy (content mismatch detected)"))
        else (fs, []) := by
  unfold pullBackupStep
  rw [h]

/-- C5 (amended): during pull a backup capture is performed iff the working
file exists and its content — normalized by CRLF→LF replacement *and*
trimming — is non-empty and differs from the similarly normalized newly
computed content.  When a backup occurs, exactly one capture is appended and
it contains the old working-file content, after a timestamped separator when a
backup chain already exists (verbatim copy otherwise); the new content goes to
the working file, not into the backup.  When the contents coincide under that
normalization (in particular on a repeated pull producing identical content)
no backup is performed. -/
theorem C5_pullBackupStep_amended (json : Bool) (fs : LocalFS)
    (envContent now : String) :
    (hasBackupWrite (pullBackupStep json fs envContent now).2 ↔
      ∃ cur, fs.env = some cur ∧ pullNormalize cur ≠ pullNormalize envContent
        ∧ pullNormalize cur ≠ "")
    ∧ (∀ cur, fs.env = some cur →
        pullNormalize cur ≠ pullNormalize envContent → pullNormalize cur ≠ "" →
        (pullBackupStep json fs envContent now).2.countP
            (fun e => match e with | .backupWrite _ => true | _ => false) = 1
        ∧ (pullBackupStep json fs envContent now).1.backup
          = some (match fs.backup with
              | some existing => existing ++ backupSeparator now ++ cur
              | none => cur)
        ∧ (pullBackupStep json fs envContent now).1.env = fs.env
        ∧ (pullBackupStep json fs envContent now).1.tracker = fs.tracker)
    ∧ (∀ cur, fs.env = some cur →
        (pullNormalize cur = pullNormalize envContent ∨ pullNormalize cur = "") →
        pullBackupStep json fs envContent now = (fs, []))
    ∧ (fs.env = none → pullBackupStep json fs envContent now = (fs, []))
    ∧ (∀ b t, pullBackupStep json ⟨some envContent, b, t⟩ envContent now
        = (⟨some envContent, b, t⟩, [])) := by
  have hbody : ∀ cur, fs.env = some cur →
      pullNormalize cur ≠ pullNormalize envContent → pullNormalize cur ≠ "" →
      (pullBackupStep json fs envContent now).2.countP
          (fun e => match e with | .backupWrite _ => true | _ => false) = 1
      ∧ (pullBackupStep json fs envContent now).1.backup
        = some (match fs.backup with
            | some existing => existing ++ backupSeparator now ++ cur
            | none => cur)
      ∧ (pullBackupStep json fs envContent now).1.env = fs.env
      ∧ (pullBackupStep json fs envContent now).1.tracker = fs.tracker := by
    intro cur hcur h1 h2
    rw [pullBackupStep_env_some json fs envContent now cur hcur, if_pos ⟨h1, h2⟩]
    cases fs.backup <;> cases json <;>
      exact ⟨by simp [emitInfo], by simp, by simp [hcur], by simp⟩
  refine ⟨?_, hbody, ?_, pullBackupStep_env_none json fs envContent now, ?_⟩
  · constructor
    · intro hbw
      cases henv : fs.env with
      | none =>
        rw [pullBackupStep_env_none json fs envContent now henv] at hbw
        rcases hbw with ⟨c, hc⟩
        cases hc
      | some cur =>
        by_cases hc : pullNormalize cur ≠ pullNormalize envContent
            ∧ pullNormalize cur ≠ ""
        · exact ⟨cur, rfl, hc.1, hc.2⟩
        · rw [pullBackupStep_env_some json fs envContent now cur henv,
            if_neg hc] at hbw
          rcases hbw with ⟨c, hcm⟩
          cases hcm
    · rintro ⟨cur, hcur, h1, h2⟩
      rw [pullBackupStep_env_some json fs envContent now cur hcur, if_pos ⟨h1, h2⟩]
      cases fs.backup <;> exact ⟨cur, List.mem_cons_self _ _⟩
  · intro cur hcur hor
    rw [pullBackupStep_env_some json fs envContent now cur hcur, if_neg (by
      rintro ⟨hh1, hh2⟩
      rcases hor with ho | ho
      · exact hh1 ho
      · exact hh2 ho)]
  · intro b t
    rw [pullBackupStep_env_some json ⟨some envContent, b, t⟩ envContent now
      envContent rfl, if_neg (by
        rintro ⟨hh1, _⟩
        exact hh1 rfl)]

/-! ## Backup-step helper lemmas -/

theorem createBackup_env (fs : LocalFS) (now : String) :
    (createBackup fs now).env = fs.env := by
  unfold createBackup
  cases h : fs.env with
  | none => exact h
  | some c => cases fs.backup <;> rfl

theorem createBackup_tracker (fs : LocalFS) (now : String) :
    (createBackup fs now).tracker = fs.tracker := by
  unfold createBackup
  cases fs.env <;> cases fs.backup <;> rfl

theorem createBackupE_fst (fs : LocalFS) (now : String) :
    (createBackupE fs now).1 = createBackup fs now := by
  unfold createBackupE createBackup
  cases fs.env <;> cases fs.backup <;> rfl

theorem createBackupE_shape (fs : LocalFS) (now : String) :
    (createBackupE fs now).2 = []
    ∨ ∃ c, (createBackupE fs now).2 = [Effect.backupWrite c] := by
  unfold createBackupE
  cases fs.env with
  | none => exact Or.inl rfl
  | some c => exact Or.inr ⟨c, rfl⟩

theorem C5_pullBackupStep_amended_witness :
    pullBackupStep false ⟨some "B=2\n", some "old", []⟩ "A=1\n" "T0"
      = (⟨some "B=2\n", some "old", []⟩, [])
    ∨ (pullBackupStep false ⟨some "B=2\n", some "old", []⟩ "A=1\n" "T0").1.backup
      = some ("old" ++ backupSeparator "T0" ++ "B=2\n") :=
  Or.inr ((C5_pullBackupStep_amended false ⟨some "B=2\n", some "old", []⟩
    "A=1\n" "T0").2.1 "B=2\n" rfl (by decide) (by decide)).2.1

/-! ## Claim C1 -/

/-- C1 as stated is false in JSON output mode: a push that receives a CONFLICT
response, with neither `--force` nor `--token`, raises `INTERACTIVE_REQUIRED`
at the confirmation prompt instead of offering a forced retry (and the
conflict report itself is suppressed by the JSON-mode output sink). -/
theorem C1_push_conflict_counterexample :
    Effect.pushConflict ∈ (pushCommand ⟨optsJson, none, true, sharedAcme, none,
        some true, some true, "T1"⟩ fsTracked remoteSeven).trace
    ∧ forcePromptCount (pushCommand ⟨optsJson, none, true, sharedAcme, none,
        some true, some true, "T1"⟩ fsTracked remoteSeven).trace = 0
    ∧ pushRequestCount (pushCommand ⟨optsJson, none, true, sharedAcme, none,
        some true, some true, "T1"⟩ fsTracked remoteSeven).trace = 1
    ∧ (pushCommand ⟨optsJson, none, true, sharedAcme, none,
        some true, some true, "T1"⟩ fsTracked remoteSeven).outcome
      = Outcome.exited 1 := by
  refine ⟨by decide, by decide, by decide, by decide⟩

/-- C1 (amended): for every push submission that receives a CONFLICT response
from the remote, when the invocation is not forced, not in token mode and not
in JSON mode, the command reports the conflict, suggests pulling, and offers
exactly one retry as a forced push: the first submission carries the base,
exactly one forced-push confirmation prompt occurs, and no retry is submitted
unless the user consents; on consent the single retry submits the same
formatted plaintext with the base omitted, the remote flags the resulting
version (the next version number) as `is_forced_push = true`, and that version
number is recorded as the new base in the version tracker. -/
theorem C1_push_conflict_amended (inp : PushInputs) (ctx : ResolvedContext)
    (localEnv : List (String × String)) (b : Nat) (fs : LocalFS) (remote : Remote)
    (hjson : inp.options.json = false)
    (hforce : inp.options.force = false)
    (htoken : inp.options.token = false)
    (hpush : remote.pushOk = true)
    (hconf : b ≠ remote.snapshots.length) :
    Effect.outError "Remote version is newer than your base."
      ∈ (pushSubmit inp ctx localEnv (some b) fs remote).2.1
    ∧ Effect.outInfo "\nRun \"envsimple pull\" to sync first, then push again."
      ∈ (pushSubmit inp ctx localEnv (some b) fs remote).2.1
    ∧ Effect.pushRequest (formatEnvContent localEnv) (some b)
      ∈ (pushSubmit inp ctx localEnv (some b) fs remote).2.1
    ∧ forcePromptCount (pushSubmit inp ctx localEnv (some b) fs remote).2.1 = 1
    ∧ (inp.answerForcePush ≠ some true →
        pushRequestCount (pushSubmit inp ctx localEnv (some b) fs remote).2.1 = 1)
    ∧ (inp.answerForcePush = some true →
        pushRequestCount (pushSubmit inp ctx localEnv (some b) fs remote).2.1 = 2
        ∧ Effect.pushRequest (formatEnvContent localEnv) none
          ∈ (pushSubmit inp ctx localEnv (some b) fs remote).2.1
        ∧ Effect.pushSuccess (remote.snapshots.length + 1) true
          ∈ (pushSubmit inp ctx localEnv (some b) fs remote).2.1
        ∧ recGet? (pushSubmit inp ctx localEnv (some b) fs remote).1.tracker
            (trackerKey ctx.org ctx.project ctx.environment)
          = some ⟨ctx.org, ctx.project, ctx.environment,
              remote.snapshots.length + 1, inp.now⟩
        ∧ (pushSubmit inp ctx localEnv (some b) fs remote).2.2 = none) := by
  have hremote : remotePush remote (formatEnvContent localEnv) (some b)
      = (remote, PushResp.conflictResp) := by
    unfold remotePush
    rw [hpush]
    simp only [Bool.not_true, Bool.false_eq_true, if_false]
    rw [if_neg hconf]
  have hretry : remotePush remote (formatEnvContent localEnv) none
      = (⟨remote.organizations, remote.projects, remote.environments,
          remote.snapshots ++ [formatEnvContent localEnv], remote.fetchOk,
          remote.pushOk, remote.rollbackOk⟩,
        PushResp.success (remote.snapshots.length + 1) true) := by
    unfold remotePush
    rw [hpush]
    simp only [Bool.not_true, Bool.false_eq_true, if_false]
  have hsub : pushSubmit inp ctx localEnv (some b) fs remote
      = (let fs1 := (createBackupE fs inp.now).1
        let trB := (createBackupE fs inp.now).2
        let plaintext := formatEnvContent localEnv
        let trC := trB ++ [Effect.pushRequest plaintext (some b)]
          ++ [Effect.pushConflict]
          ++ [Effect.outError "Remote version is newer than your base."]
          ++ [Effect.outInfo "\nRun \"envsimple pull\" to sync first, then push again."]
        match inp.answerForcePush with
        | none =>
          (fs1, trC ++ [Effect.promptConfirm "\nPush anyway (forced push)?"],
            some cancelledError)
        | some false =>
          (fs1, trC ++ [Effect.promptConfirm "\nPush anyway (forced push)?"],
            some ⟨some "CONFLICT", "Push conflict - remote version is newer"⟩)
        | some true =>
          (⟨fs1.env, fs1.backup,
              updateVersionInfo fs1.tracker ctx.org ctx.project ctx.environment
                (remote.snapshots.length + 1) inp.now⟩,
            trC ++ [Effect.promptConfirm "\nPush anyway (forced push)?"]
              ++ [Effect.pushRequest plaintext none]
              ++ [Effect.pushSuccess (remote.snapshots.length + 1) true,
                Effect.trackerWrite (trackerKey ctx.org ctx.project ctx.environment)
                  (remote.snapshots.length + 1)]
              ++ [Effect.outSuccess ("Forced push: version "
                  ++ toString (remote.snapshots.length + 1))],
            none)) := by
    unfold pushSubmit
    rw [htoken, hjson, hforce]
    rw [show ((createBackupE fs inp.now : LocalFS × List Effect))
        = ((createBackupE fs inp.now).1, (createBackupE fs inp.now).2) from rfl]
    simp only [Bool.false_eq_true, if_false, hremote, hretry, Bool.not_false,
      Bool.and_self, if_true, confirmPrompt, emitError, emitInfo, emitSuccess]
    cases inp.answerForcePush with
    | none => simp
    | some a =>
      cases a with
      | true => simp
      | false => simp
  have hcount0 : ∀ p : Effect → Bool, ((createBackupE fs inp.now).2.countP p = 0
      ∨ ∃ c, (createBackupE fs inp.now).2 = [Effect.backupWrite c]) := by
    intro p
    rcases createBackupE_shape fs inp.now with hB | ⟨c, hB⟩
    · rw [hB]
      exact Or.inl rfl
    · exact Or.inr ⟨c, hB⟩
  have hBcount : ∀ p : Effect → Bool, (∀ c, p (Effect.backupWrite c) = false) →
      (createBackupE fs inp.now).2.countP p = 0 := by
    intro p hp
    rcases createBackupE_shape fs inp.now with hB | ⟨c, hB⟩ <;> rw [hB]
    · rfl
    · rw [List.countP_cons, List.countP_nil, hp c]
      rfl
  have hpromptB : (createBackupE fs inp.now).2.countP
      (fun e => e = Effect.promptConfirm "\nPush anyway (forced push)?") = 0 :=
    hBcount _ (fun c => by simp)
  have hreqB : (createBackupE fs inp.now).2.countP
      (fun e => match e with | .pushRequest _ _ => true | _ => false) = 0 :=
    hBcount _ (fun c => by simp)
  cases ha : inp.answerForcePush with
  | none =>
    rw [hsub]
    simp only [ha]
    refine ⟨by simp, by simp, by simp, ?_, ?_, ?_⟩
    · unfold forcePromptCount
      simp only [List.countP_append, List.countP_cons, List.countP_nil, hpromptB]
      simp
    · intro _
      unfold pushRequestCount
      simp only [List.countP_append, List.countP_cons, List.countP_nil, hreqB]
      simp
    · intro he
      cases he
  | some a =>
    cases a with
    | false =>
      rw [hsub]
      simp only [ha]
      refine ⟨by simp, by simp, by simp, ?_, ?_, ?_⟩
      · unfold forcePromptCount
        simp only [List.countP_append, List.countP_cons, List.countP_nil, hpromptB]
        simp
      · intro _
        unfold pushRequestCount
        simp only [List.countP_append, List.countP_cons, List.countP_nil, hreqB]
        simp
      · intro he
        cases he
    | true =>
      rw [hsub]
      simp only [ha]
      refine ⟨by simp, by simp, by simp, ?_, ?_, ?_⟩
      · unfold forcePromptCount
        simp only [List.countP_append, List.countP_cons, List.countP_nil, hpromptB]
        simp
      · intro hne
        exact absurd rfl hne
      · intro _
        refine ⟨?_, by simp, by simp, ?_, by trivial⟩
        · unfold pushRequestCount
          simp only [List.countP_append, List.countP_cons, List.countP_nil, hreqB]
          simp
        · show recGet? (updateVersionInfo (createBackupE fs inp.now).1.tracker
              ctx.org ctx.project ctx.environment (remote.snapshots.length + 1)
              inp.now) (trackerKey ctx.org ctx.project ctx.environment)
            = some ⟨ctx.org, ctx.project, ctx.environment,
                remote.snapshots.length + 1, inp.now⟩
          unfold updateVersionInfo
          exact recGet?_recSet_self _ _ _

/-! ## State-on-error helper lemmas -/

theorem cmdCatch_fs (d : String) (j : Bool) (fs : LocalFS) (tr : List Effect)
    (e : CmdError) : (cmdCatch d j fs tr e).fs = fs := by
  unfold cmdCatch
  by_cases h : j = true
  · rw [if_pos h]
  · rw [if_neg h]
    by_cases h2 : e.code = some "PERMISSION_DENIED"
    · rw [if_pos h2]
    · rw [if_neg h2]

theorem cmdCatch_trace_mem (d : String) (j : Bool) (fs : LocalFS)
    (tr : List Effect) (e : CmdError) (x : Effect) (hx : x ∈ tr) :
    x ∈ (cmdCatch d j fs tr e).trace := by
  unfold cmdCatch
  by_cases h : j = true
  · rw [if_pos h]
    exact List.mem_append_left _ hx
  · rw [if_neg h]
    by_cases h2 : e.code = some "PERMISSION_DENIED"
    · rw [if_pos h2]
      exact List.mem_append_left _ hx
    · rw [if_neg h2]
      exact List.mem_append_left _ hx

theorem bkOf_tracker (inp : PushInputs) (fs : LocalFS) :
    (if inp.options.token then (fs, ([] : List Effect))
      else createBackupE fs inp.now).1.tracker = fs.tracker := by
  cases htok : inp.options.token
  · rw [if_neg (by simp)]
    rw [createBackupE_fst, createBackup_tracker]
  · rw [if_pos rfl]

theorem pushSubmit_cases (inp : PushInputs) (ctx : ResolvedContext)
    (localEnv : List (String × String)) (base : Option Nat) (fs : LocalFS)
    (remote : Remote) :
    (pushSubmit inp ctx localEnv base fs remote).1.tracker = fs.tracker
    ∨ pushSucceeded (pushSubmit inp ctx localEnv base fs remote).2.1 := by
  unfold pushSubmit
  dsimp only
  cases hr : (remotePush remote (formatEnvContent localEnv) base).2 with
  | success vn forced =>
    right
    exact ⟨vn, forced, by simp⟩
  | netError =>
    left
    exact bkOf_tracker inp fs
  | conflictResp =>
    by_cases hft : (!inp.options.force && !inp.options.token) = true
    · rw [if_pos hft]
      cases hcp : (confirmPrompt inp.options.json "\nPush anyway (forced push)?"
          inp.answerForcePush).2 with
      | error e =>
        left
        exact bkOf_tracker inp fs
      | ok bb =>
        cases bb with
        | false =>
          left
          exact bkOf_tracker inp fs
        | true =>
          cases hr2 : (remotePush (remotePush remote (formatEnvContent localEnv) base).1
              (formatEnvContent localEnv) none).2 with
          | success vn2 f2 =>
            right
            exact ⟨vn2, f2, by simp⟩
          | netError =>
            left
            exact bkOf_tracker inp fs
          | conflictResp =>
            left
            exact bkOf_tracker inp fs
    · rw [if_neg hft]
      left
      exact bkOf_tracker inp fs

theorem pushCommand_tracker_cases (inp : PushInputs) (fs : LocalFS)
    (remote : Remote) :
    (pushCommand inp fs remote).fs.tracker = fs.tracker
    ∨ pushSucceeded (pushCommand inp fs remote).trace := by
  unfold pushCommand
  cases hp : pushPrepare inp fs with
  | error pr =>
    rcases pr with ⟨tr, e⟩
    dsimp only
    left
    rw [cmdCatch_fs]
  | ok t =>
    rcases t with ⟨ctx, localEnv, tr1⟩
    dsimp only
    cases hl : lookupEnvId remote ctx with
    | error e =>
      dsimp only
      left
      rw [cmdCatch_fs]
    | ok envId =>
      dsimp only
      rcases pushSubmit_cases inp ctx localEnv (pushBase inp fs remote ctx).1 fs remote
        with hc | ⟨vn, f, hmem⟩
      · cases hps : (pushSubmit inp ctx localEnv (pushBase inp fs remote ctx).1
            fs remote).2.2 with
        | none =>
          dsimp only
          left
          exact hc
        | some e =>
          dsimp only
          left
          rw [cmdCatch_fs]
          exact hc
      · cases hps : (pushSubmit inp ctx localEnv (pushBase inp fs remote ctx).1
            fs remote).2.2 with
        | none =>
          dsimp only
          right
          exact ⟨vn, f, List.mem_append_right _ hmem⟩
        | some e =>
          dsimp only
          right
          exact ⟨vn, f, cmdCatch_trace_mem _ _ _ _ _ _
            (List.mem_append_right _ hmem)⟩

theorem pullFinish_outcome (inp : PullInputs) (fs : LocalFS)
    (ctx : ResolvedContext) (baseEnv : List (String × String)) (vn : Nat)
    (tr : List Effect) :
    (pullFinish inp fs ctx baseEnv vn tr).outcome = Outcome.completed := by
  unfold pullFinish
  dsimp only

theorem pullFinish_trace_mem (inp : PullInputs) (fs : LocalFS)
    (ctx : ResolvedContext) (baseEnv : List (String × String)) (vn : Nat)
    (tr : List Effect) (x : Effect) (hx : x ∈ tr) :
    x ∈ (pullFinish inp fs ctx baseEnv vn tr).trace := by
  unfold pullFinish
  dsimp only
  exact List.mem_append_left _ (List.mem_append_left _ (List.mem_append_left _ hx))

theorem pullWithCtx_cases (inp : PullInputs) (fs : LocalFS) (remote : Remote)
    (ctx : ResolvedContext) (tr0 : List Effect) :
    (pullWithCtx inp fs remote ctx tr0).fs = fs
    ∨ (fetchSucceeded (pullWithCtx inp fs remote ctx tr0).trace
        ∧ (pullWithCtx inp fs remote ctx tr0).outcome = Outcome.completed) := by
  unfold pullWithCtx
  dsimp only
  cases hl : lookupEnvId remote ctx with
  | error e =>
    dsimp only
    left
    rw [cmdCatch_fs]
  | ok envId =>
    dsimp only
    cases hg : remoteGetCurrent remote with
    | none =>
      dsimp only
      left
      rw [cmdCatch_fs]
    | some snap =>
      dsimp only
      split
      · cases hcp : (confirmPrompt inp.options.json
            "This will overwrite your local .env file. Continue?"
            inp.answerOverwrite).2 with
        | error e =>
          dsimp only
          left
          rw [cmdCatch_fs]
        | ok bb =>
          cases bb with
          | false =>
            dsimp only
            left
            rfl
          | true =>
            dsimp only
            right
            refine ⟨⟨snap.version_number, pullFinish_trace_mem _ _ _ _ _ _ _ ?_⟩,
              pullFinish_outcome _ _ _ _ _ _⟩
            simp
      · right
        refine ⟨⟨snap.version_number, pullFinish_trace_mem _ _ _ _ _ _ _ ?_⟩,
          pullFinish_outcome _ _ _ _ _ _⟩
        simp

theorem pullCommand_cases (inp : PullInputs) (fs : LocalFS) (remote : Remote) :
    (pullCommand inp fs remote).fs = fs
    ∨ (fetchSucceeded (pullCommand inp fs remote).trace
        ∧ (pullCommand inp fs remote).outcome = Outcome.completed) := by
  unfold pullCommand
  cases ha : inp.authOk with
  | false =>
    dsimp only
    rw [if_pos (show (!false) = true from rfl)]
    left
    rw [cmdCatch_fs]
  | true =>
    dsimp only
    rw [if_neg (show ¬((!true) = true) from by decide)]
    cases hr : resolveContext inp.options inp.sharedFile inp.localFile false with
    | error e =>
      cases e with
      | configurationError m =>
        dsimp only
        left
        rw [cmdCatch_fs]
    | ok octx =>
      cases octx with
      | some ctx =>
        dsimp only
        exact pullWithCtx_cases inp fs remote ctx _
      | none =>
        dsimp only
        cases hj : inp.options.json with
        | true =>
          rw [if_pos (show true = true from rfl)]
          left
          rfl
        | false =>
          rw [if_neg (show ¬(false = true) from by decide)]
          cases hic : inp.interactiveCtx with
          | none =>
            dsimp only
            left
            rw [cmdCatch_fs]
          | some t =>
            rcases t with ⟨o, p, e2⟩
            dsimp only
            exact pullWithCtx_cases inp fs remote ⟨o, p, e2, .interactive⟩ _

theorem rollbackAfterRemote_cases (inp : RollbackInputs) (fs : LocalFS)
    (remote1 : Remote) (ctx : ResolvedContext) (fV tV vV : Nat)
    (tr : List Effect) (a b c : Nat)
    (hroll : Effect.rollbackSuccess a b c ∈ tr) :
    ((rollbackAfterRemote inp fs remote1 ctx fV tV vV tr).fs.tracker = fs.tracker
      ∧ (rollbackAfterRemote inp fs remote1 ctx fV tV vV tr).fs.env = fs.env
      ∧ rollbackSucceeded (rollbackAfterRemote inp fs remote1 ctx fV tV vV tr).trace)
    ∨ (rollbackSucceeded (rollbackAfterRemote inp fs remote1 ctx fV tV vV tr).trace
        ∧ fetchSucceeded (rollbackAfterRemote inp fs remote1 ctx fV tV vV tr).trace
        ∧ (rollbackAfterRemote inp fs remote1 ctx fV tV vV tr).outcome
          = Outcome.completed) := by
  unfold rollbackAfterRemote
  dsimp only
  cases hg : remoteGetCurrent remote1 with
  | none =>
    dsimp only
    left
    refine ⟨?_, ?_, ?_⟩
    · rw [cmdCatch_fs, createBackupE_fst, createBackup_tracker]
    · rw [cmdCatch_fs, createBackupE_fst, createBackup_env]
    · exact ⟨a, b, c, cmdCatch_trace_mem _ _ _ _ _ _
        (List.mem_append_left _ (List.mem_append_left _ hroll))⟩
  | some snap =>
    dsimp only
    right
    refine ⟨⟨a, b, c, ?_⟩, ⟨snap.version_number, ?_⟩, rfl⟩
    · exact List.mem_append_left _ (List.mem_append_left _
        (List.mem_append_left _ (List.mem_append_left _ hroll)))
    · exact List.mem_append_left _ (List.mem_append_right _ (by simp))

theorem rollbackCommand_cases (inp : RollbackInputs) (fs : LocalFS)
    (remote : Remote) :
    (rollbackCommand inp fs remote).fs = fs
    ∨ ((rollbackCommand inp fs remote).fs.tracker = fs.tracker
        ∧ (rollbackCommand inp fs remote).fs.env = fs.env
        ∧ rollbackSucceeded (rollbackCommand inp fs remote).trace)
    ∨ (rollbackSucceeded (rollbackCommand inp fs remote).trace
        ∧ fetchSucceeded (rollbackCommand inp fs remote).trace
        ∧ (rollbackCommand inp fs remote).outcome = Outcome.completed) := by
  unfold rollbackCommand
  cases ha : inp.authOk with
  | false =>
    dsimp only
    rw [if_pos (show (!false) = true from rfl)]
    left
    rw [cmdCatch_fs]
  | true =>
    dsimp only
    rw [if_neg (show ¬((!true) = true) from by decide)]
    split
    · left
      rw [cmdCatch_fs]
    · cases hr : resolveContext inp.options inp.sharedFile inp.localFile false with
      | error e =>
        cases e with
        | configurationError m =>
          dsimp only
          left
          rw [cmdCatch_fs]
      | ok octx =>
        cases octx with
        | none =>
          dsimp only
          left
          rw [cmdCatch_fs]
        | some ctx =>
          dsimp only
          cases hl : lookupEnvId remote ctx with
          | error e =>
            dsimp only
            left
            rw [cmdCatch_fs]
          | ok envId =>
            dsimp only
            rcases hrr : remoteRollback remote (inp.target.getD 0) with ⟨r1, resp⟩
            cases resp with
            | netError =>
              dsimp only
              left
              rw [cmdCatch_fs]
            | notFound =>
              dsimp only
              left
              rw [cmdCatch_fs]
            | success fV tV vV =>
              dsimp only
              rcases rollbackAfterRemote_cases inp fs r1 ctx fV tV vV
                  ([Effect.rollbackRequest (inp.target.getD 0)]
                    ++ [Effect.rollbackSuccess fV tV vV]) fV tV vV (by simp)
                with ⟨h1, h2, h3⟩ | h
              · exact Or.inr (Or.inl ⟨h1, h2, h3⟩)
              · exact Or.inr (Or.inr h)

theorem C1_push_conflict_amended_witness :
    Effect.pushSuccess 8 true
      ∈ (pushSubmit ⟨optsPlain, none, true, sharedAcme, none, some true, some true, "T1"⟩
          ⟨"acme", "pay", "prod", .sharedFile⟩ [("A", "1")] (some 5)
          fsTracked remoteSeven).2.1 :=
  ((C1_push_conflict_amended
      ⟨optsPlain, none, true, sharedAcme, none, some true, some true, "T1"⟩
      ⟨"acme", "pay", "prod", .sharedFile⟩ [("A", "1")] 5 fsTracked remoteSeven
      rfl rfl rfl rfl (by decide)).2.2.2.2.2 rfl).2.2.1

/-- **C8** is refuted on push: with a tracked stale base (5 vs remote 7) and no
force/token flag, push hits a conflict, the user aborts at the forced-push
confirmation prompt, and the command exits with status 1 without any push
having succeeded — yet the backup capture taken *before* submission persists:
the backup file went from absent to the working-file content. -/
theorem C8_state_on_error_counterexample :
    (pushCommand ⟨optsPlain, none, true, sharedAcme, none, some true, none, "T1"⟩
        fsTracked remoteSeven).outcome = Outcome.exited 1
    ∧ (pushCommand ⟨optsPlain, none, true, sharedAcme, none, some true, none, "T1"⟩
        fsTracked remoteSeven).trace.countP
        (fun e => match e with | Effect.pushSuccess _ _ => true | _ => false) = 0
    ∧ Effect.promptConfirm "\nPush anyway (forced push)?"
        ∈ (pushCommand ⟨optsPlain, none, true, sharedAcme, none, some true, none, "T1"⟩
            fsTracked remoteSeven).trace
    ∧ fsTracked.backup = none
    ∧ (pushCommand ⟨optsPlain, none, true, sharedAcme, none, some true, none, "T1"⟩
        fsTracked remoteSeven).fs.backup = some "A=1\n" := by
  refine ⟨rfl, rfl, ?_, rfl, rfl⟩
  rw [show (pushCommand ⟨optsPlain, none, true, sharedAcme, none, some true, none, "T1"⟩
      fsTracked remoteSeven).trace
    = [Effect.backupWrite "A=1\n",
       Effect.pushRequest "A=1\n" (some 5),
       Effect.pushConflict,
       Effect.outError "Remote version is newer than your base.",
       Effect.outInfo "\nRun \"envsimple pull\" to sync first, then push again.",
       Effect.promptConfirm "\nPush anyway (forced push)?",
       Effect.outError "Operation cancelled"] from rfl]
  simp

/-- **C8** (amended).  State writes are success-gated as follows: a push writes
the version tracker only when a push submission succeeded; a pull changes the
local state at all only when the snapshot fetch succeeded and the command
completed; a rollback writes the backup only when the remote rollback call
succeeded, and touches the working file or the tracker only when additionally
the post-rollback fetch succeeded and the command completed.  The push
*backup*, however, is written before submission and is not success-gated (see
the counterexample), and the rollback backup precedes the fetch of the
rolled-back content. -/
theorem C8_writes_after_success_amended
    (pinp : PushInputs) (linp : PullInputs) (rinp : RollbackInputs)
    (pfs lfs rfs : LocalFS) (pre lre rre : Remote) :
    (¬ pushSucceeded (pushCommand pinp pfs pre).trace →
        (pushCommand pinp pfs pre).fs.tracker = pfs.tracker)
    ∧ ((pullCommand linp lfs lre).fs ≠ lfs →
        fetchSucceeded (pullCommand linp lfs lre).trace
          ∧ (pullCommand linp lfs lre).outcome = Outcome.completed)
    ∧ ((rollbackCommand rinp rfs rre).fs.backup ≠ rfs.backup →
        rollbackSucceeded (rollbackCommand rinp rfs rre).trace)
    ∧ ((rollbackCommand rinp rfs rre).fs.tracker ≠ rfs.tracker
          ∨ (rollbackCommand rinp rfs rre).fs.env ≠ rfs.env →
        rollbackSucceeded (rollbackCommand rinp rfs rre).trace
          ∧ fetchSucceeded (rollbackCommand rinp rfs rre).trace
          ∧ (rollbackCommand rinp rfs rre).outcome = Outcome.completed) := by
  refine ⟨?_, ?_, ?_, ?_⟩
  · intro h
    rcases pushCommand_tracker_cases pinp pfs pre with hc | hs
    · exact hc
    · exact absurd hs h
  · intro h
    rcases pullCommand_cases linp lfs lre with hc | hs
    · exact absurd hc h
    · exact hs
  · intro h
    rcases rollbackCommand_cases rinp rfs rre with hc | ⟨h1, h2, hs⟩ | ⟨hs, h1, h2⟩
    · exact absurd (congrArg LocalFS.backup hc) h
    · exact hs
    · exact hs
  · intro h
    rcases rollbackCommand_cases rinp rfs rre with hc | ⟨h1, h2, hs⟩ | hsucc
    · rcases h with h | h
      · exact absurd (congrArg LocalFS.tracker hc) h
      · exact absurd (congrArg LocalFS.env hc) h
    · rcases h with h | h
      · exact absurd h1 h
      · exact absurd h2 h
    · exact hsucc

theorem C8_writes_after_success_amended_witness :
    (pushCommand ⟨optsPlain, none, false, sharedAcme, none, none, none, "T"⟩
        fsTracked remoteSeven).fs.tracker = fsTracked.tracker
    ∧ (fetchSucceeded (pullCommand ⟨optsPlain, true, sharedAcme, none, none, some true, "T2"⟩
          ⟨some "OLD=1\n", none, []⟩ remoteSeven).trace
        ∧ (pullCommand ⟨optsPlain, true, sharedAcme, none, none, some true, "T2"⟩
            ⟨some "OLD=1\n", none, []⟩ remoteSeven).outcome = Outcome.completed)
    ∧ rollbackSucceeded (rollbackCommand ⟨optsPlain, some 3, true, sharedAcme, none, "T3"⟩
          ⟨some "OLD=1\n", none, []⟩ remoteSeven).trace
    ∧ (rollbackSucceeded (rollbackCommand ⟨optsPlain, some 3, true, sharedAcme, none, "T3"⟩
            ⟨some "OLD=1\n", none, []⟩ remoteSeven).trace
        ∧ fetchSucceeded (rollbackCommand ⟨optsPlain, some 3, true, sharedAcme, none, "T3"⟩
            ⟨some "OLD=1\n", none, []⟩ remoteSeven).trace
        ∧ (rollbackCommand ⟨optsPlain, some 3, true, sharedAcme, none, "T3"⟩
            ⟨some "OLD=1\n", none, []⟩ remoteSeven).outcome = Outcome.completed) := by
  have H := C8_writes_after_success_amended
    ⟨optsPlain, none, false, sharedAcme, none, none, none, "T"⟩
    ⟨optsPlain, true, sharedAcme, none, none, some true, "T2"⟩
    ⟨optsPlain, some 3, true, sharedAcme, none, "T3"⟩
    fsTracked ⟨some "OLD=1\n", none, []⟩ ⟨some "OLD=1\n", none, []⟩
    remoteSeven remoteSeven remoteSeven
  refine ⟨H.1 ?_, H.2.1 ?_, H.2.2.1 ?_, H.2.2.2 ?_⟩
  · rintro ⟨vn, f, hm⟩
    rw [show (pushCommand ⟨optsPlain, none, false, sharedAcme, none, none, none, "T"⟩
        fsTracked remoteSeven).trace
      = [Effect.outError "Not logged in. Run \"envsimple login\" first."] from rfl] at hm
    simp at hm
  · intro h
    have hb := congrArg LocalFS.backup h
    rw [show (pullCommand ⟨optsPlain, true, sharedAcme, none, none, some true, "T2"⟩
        ⟨some "OLD=1\n", none, []⟩ remoteSeven).fs.backup = some "OLD=1\n" from rfl] at hb
    exact Option.noConfusion hb
  · intro h
    rw [show (rollbackCommand ⟨optsPlain, some 3, true, sharedAcme, none, "T3"⟩
        ⟨some "OLD=1\n", none, []⟩ remoteSeven).fs.backup = some "OLD=1\n" from rfl] at h
    exact Option.noConfusion h
  · refine Or.inl ?_
    rw [show (rollbackCommand ⟨optsPlain, some 3, true, sharedAcme, none, "T3"⟩
        ⟨some "OLD=1\n", none, []⟩ remoteSeven).fs.tracker
      = [("acme/pay/prod", ⟨"acme", "pay", "prod", 8, "T3"⟩)] from rfl]
    exact fun hh => List.noConfusion hh

end EnvSimple
